import Mathlib

/-
  Verification development for the RFID content-type resolution core.

  The TypeScript source is shallowly embedded:
  - JavaScript values are modelled by an inductive type Val over a heap
    (a list of nodes); object references are heap addresses, so JS
    reference identity is address equality and mutation is heap update.
  - JS numbers that occur in this code are integers (parseInt results,
    content ids/values, timestamps), modelled by Int; NaN and undefined
    are modelled by Option (none).
  - async control flow is modelled by explicit outcome data types and
    state passing; remote calls (the external ApiInterface collaborator)
    are parameters of the embedded functions.

  Embedded functions (source names kept):
    recursiveSelect, getTagNumbers, processTextMapper, createBatcher
    (as a state machine batcherSet / batcherTimerFire), the
    processDeferredBatched flush callback and cache merge,
    __recursiveLookup / recursiveLookup (as look / lookItems over a
    heap, with fuel bounding recursion depth), fetchExtraInfo, the
    maybeVirtual fetch retry loop, and the content-type dispatch
    getTagInfoFromValuesWithoutExtraFetcher / findTagInfo.
-/

/-- JS runtime values. An address refers to a node in a heap; vclosure
stands for any function value (only the synthetic toJson closure is ever
stored by the embedded code, and it is never compared or traversed). -/
inductive Val where
  | vnull
  | vbool (b : Bool)
  | vnum (n : Int)
  | vstr (s : String)
  | vaddr (a : Nat)
  | vclosure
deriving DecidableEq, Repr

/-- A heap node: a plain object, or an array with its elements plus the
non-index own properties that can be attached to it. -/
inductive Node where
  | obj (fields : List (String × Val))
  | arr (elems : List Val) (extra : List (String × Val))
deriving DecidableEq, Repr

abbrev Heap := List Node

def nodeAt (h : Heap) (a : Nat) : Option Node := h.get? a

def assocGet (l : List (String × Val)) (k : String) : Option Val :=
  (l.find? (fun p => p.1 == k)).map (fun p => p.2)

/-- JS property write on a plain-record model: overwrite in place if the
key exists (property order preserved), else append. -/
def assocSet (l : List (String × Val)) (k : String) (v : Val) : List (String × Val) :=
  if (l.find? (fun p => p.1 == k)).isSome then
    l.map (fun p => if p.1 == k then (k, v) else p)
  else l ++ [(k, v)]

def digitVal? (c : Char) : Option Nat :=
  if c.isDigit then some (c.toNat - 48) else none

/-- Canonical array-index property names: "0", "1", ... with no leading
zeros, as JS distinguishes arr[1] from the plain property "01". -/
def parseIndex? (s : String) : Option Nat :=
  match s.data with
  | [] => none
  | c :: cs =>
    if (c :: cs).all Char.isDigit then
      if c = Char.ofNat 48 ∧ cs ≠ [] then none
      else some ((c :: cs).foldl (fun acc d => acc * 10 + (d.toNat - 48)) 0)
    else none

/-- JS property read obj[k] for the keys the embedded code uses. Reads on
primitives yield undefined (none); the string-indexing and length corner
cases of JS primitives are never exercised by the embedded code, which
only reads properties of objects and arrays. -/
def getField (h : Heap) (v : Val) (k : String) : Option Val :=
  match v with
  | .vaddr a =>
    match nodeAt h a with
    | some (.obj fs) => assocGet fs k
    | some (.arr es ex) =>
      match parseIndex? k with
      | some i =>
        match es.get? i with
        | some e => some e
        | none => assocGet ex k
      | none => assocGet ex k
    | none => none
  | _ => none

def jsTruthy (v : Val) : Bool :=
  match v with
  | .vnull => false
  | .vbool b => b
  | .vnum n => n != 0
  | .vstr s => s != ""
  | .vaddr _ => true
  | .vclosure => true

/-- JS ToNumber on the strings this code compares: the empty string is 0,
an optionally signed digit string is its value, anything else (including
fractional or whitespace-padded forms, which never meet an integer here)
is treated as a non-matching number. -/
def jsToNumber? (s : String) : Option Int :=
  match s.data with
  | [] => some 0
  | c :: cs =>
    let core := if c = Char.ofNat 45 then cs else c :: cs
    if core ≠ [] ∧ core.all Char.isDigit then
      let m : Int := core.foldl (fun acc d => acc * 10 + (Int.ofNat (d.toNat - 48))) 0
      some (if c = Char.ofNat 45 then -m else m)
    else none

/-- JS loose equality == restricted to the value shapes this code
compares. Distinct objects are never loosely equal (reference semantics;
object-to-primitive coercion is not exercised by the embedded code). -/
def jsEq (a b : Val) : Bool :=
  match a, b with
  | .vnull, .vnull => true
  | .vnum x, .vnum y => x == y
  | .vstr x, .vstr y => x == y
  | .vbool x, .vbool y => x == y
  | .vnum x, .vstr s => (jsToNumber? s).any (fun t => t == x)
  | .vstr s, .vnum x => (jsToNumber? s).any (fun t => t == x)
  | .vbool bx, .vnum y => (if bx then (1 : Int) else 0) == y
  | .vnum y, .vbool bx => (if bx then (1 : Int) else 0) == y
  | .vbool bx, .vstr s => (jsToNumber? s).any (fun t => t == (if bx then (1 : Int) else 0))
  | .vstr s, .vbool bx => (jsToNumber? s).any (fun t => t == (if bx then (1 : Int) else 0))
  | .vaddr x, .vaddr y => x == y
  | _, _ => false

/-- Loose equality lifted to possibly-undefined operands:
undefined == undefined and undefined == null hold in JS. -/
def jsEqOpt (a b : Option Val) : Bool :=
  match a, b with
  | none, none => true
  | none, some .vnull => true
  | some .vnull, none => true
  | some x, some y => jsEq x y
  | _, _ => false

/-- JS String() on the values substituted into templates. Arrays join
their elements with commas (null/undefined render empty); plain objects
stringify to the usual object marker. Fuel bounds the (heap-length)
recursion; the embedded call sites only reach strings and numbers. -/
def jsToStringF (h : Heap) : Nat → Val → String
  | _, .vnull => "null"
  | _, .vbool b => if b then "true" else "false"
  | _, .vnum n => toString n
  | _, .vstr s => s
  | _, .vclosure => ""
  | 0, .vaddr _ => ""
  | fuel + 1, .vaddr a =>
    match nodeAt h a with
    | some (.arr es _) =>
      String.intercalate "," (es.map (fun e =>
        match e with
        | .vnull => ""
        | x => jsToStringF h fuel x))
    | _ => "[object Object]"

def jsToString (h : Heap) (v : Val) : String := jsToStringF h (h.length + 1) v

/-- Property-key coercion for target[lookingForValue]; the value is a
string or number by the source's types. -/
def valToKey (v : Val) : String :=
  match v with
  | .vstr s => s
  | .vnum n => toString n
  | .vbool b => if b then "true" else "false"
  | .vnull => "null"
  | _ => ""

/-- String.prototype.split with separator "." (kept faithful: empty
segments are preserved; the empty string splits to one empty segment). -/
def splitDotChars : List Char → List (List Char)
  | [] => [[]]
  | c :: cs =>
    let rest := splitDotChars cs
    if c = Char.ofNat 46 then [] :: rest
    else
      match rest with
      | [] => [[c]]
      | r :: rs => (c :: r) :: rs

def splitDot (s : String) : List String :=
  (splitDotChars s.data).map (fun cs => String.mk cs)

/-- select-path segments: split on "." and drop empty segments, as
recursiveSelect does. -/
def splitSelector (s : String) : List String :=
  (splitDot s).filter (fun seg => seg != "")

/--
Embeds recursiveSelect (safe nested-field reader): empty selector
returns the input unchanged; property access on undefined or null throws
in JS and is caught, yielding undefined.
-/
def recursiveSelect (h : Heap) : List String → Option Val → Option Val
  | [], obj => obj
  | _ :: _, none => none
  | _ :: _, some .vnull => none
  | seg :: rest, some v => recursiveSelect h rest (getField h v seg)

def recursiveSelectStr (h : Heap) (selector : String) (obj : Option Val) : Option Val :=
  recursiveSelect h (splitSelector selector) obj

/- ===== getTagNumbers (hex EPC decoding) ===== -/

def hexDigitVal? (c : Char) : Option Nat :=
  if c.isDigit then some (c.toNat - 48)
  else if 97 ≤ c.toNat ∧ c.toNat ≤ 102 then some (c.toNat - 87)
  else if 65 ≤ c.toNat ∧ c.toNat ≤ 70 then some (c.toNat - 55)
  else none

def isHexDigit (c : Char) : Bool := (hexDigitVal? c).isSome

/-- JS parseInt(s, 16) on the chunk strings this code parses: value of
the maximal leading run of hex digits, NaN (none) when there is none.
(The whitespace/sign/0x prefixes of full parseInt never occur in an EPC
chunk.) -/
def parseIntHex (s : String) : Option Int :=
  match s.data.takeWhile isHexDigit with
  | [] => none
  | ds => some (Int.ofNat (ds.foldl (fun acc c => acc * 16 + ((hexDigitVal? c).getD 0)) 0))

/-- The /.{1,8}/g chunking: consecutive chunks of 8, last possibly
shorter, no chunks for the empty string. The fuel argument (initialised
to the list length, which always suffices) keeps the recursion
structural. -/
def chunksOf8F : Nat → List Char → List (List Char)
  | _, [] => []
  | 0, _ :: _ => []
  | n + 1, c :: cs => (c :: cs.take 7) :: chunksOf8F n (cs.drop 7)

def chunksOf8 (l : List Char) : List (List Char) := chunksOf8F l.length l

/-- isValidNumber holds for a finite number and fails for NaN or
undefined; parse results are modelled as Option Int with none for both
failure modes, so validity is isSome. -/
def isValidNumberOpt (v : Option Int) : Bool := v.isSome

/--
Embeds getTagNumbers (canonical revision): when the EPC has at least 32
characters, drop the first 8; chunk the remainder into 8-character
pieces; parse the first two as hex; null unless both are valid numbers.
-/
def getTagNumbers (tagEpc : String) : Option (Int × Int) :=
  let s := if tagEpc.length ≥ 32 then String.mk (tagEpc.data.drop 8) else tagEpc
  let chunks := chunksOf8 s.data
  let v1 := ((chunks.get? 0).map String.mk).bind parseIntHex
  let v2 := ((chunks.get? 1).map String.mk).bind parseIntHex
  if isValidNumberOpt v1 ∧ isValidNumberOpt v2 then
    match v1, v2 with
    | some a, some b => some (a, b)
    | _, _ => none
  else none

/-- Modelled from the spec sentence the claim cites: take the last 16
hex characters (the whole string when it is shorter than 16), split into
two 8-character chunks, parse both as hex; fail when either chunk is not
a valid number. Written for comparison against getTagNumbers. -/
def specTagNumbersLast16 (s : String) : Option (Int × Int) :=
  let w := if s.length ≥ 16 then s.data.drop (s.data.length - 16) else s.data
  let v1 := parseIntHex (String.mk (w.take 8))
  let v2 := parseIntHex (String.mk (w.drop 8))
  match v1, v2 with
  | some a, some b => some (a, b)
  | _, _ => none

/-- The window getTagNumbers actually decodes, written out directly:
characters 8..23 when the string has at least 32 characters, otherwise
the first 16 characters; split 8/8 and parse both chunks as hex. -/
def getTagNumbersWindow (s : String) : Option (Int × Int) :=
  let w := if s.length ≥ 32 then ((s.data.drop 8).take 16) else s.data.take 16
  let v1 := parseIntHex (String.mk (w.take 8))
  let v2 := parseIntHex (String.mk ((w.drop 8).take 8))
  match v1, v2 with
  | some a, some b => some (a, b)
  | _, _ => none

/- ===== processTextMapper (Text Mapper) ===== -/

def openBrace : Char := Char.ofNat 123

def closeBrace : Char := Char.ofNat 125

/-- After an opening brace, the regex placeholder body: one or more
digits immediately followed by a closing brace. Returns the numeric
index and the remaining characters. -/
def digitsThenBrace (cs : List Char) : Option (Nat × List Char) :=
  match cs.takeWhile Char.isDigit with
  | [] => none
  | ds =>
    match cs.drop ds.length with
    | c :: rest =>
      if c = closeBrace then
        some (ds.foldl (fun acc d => acc * 10 + (d.toNat - 48)) 0, rest)
      else none
    | [] => none

/-- The replacement the matcher callback returns for placeholder index
i: the matched value when it is in range and truthy, else the literal
unknown-value marker. (The callback's Number.isNaN branch is dead: the
regex only captures digit runs, which always parse to a number.) -/
def placeholderReplacement (h : Heap) (matchedValues : List Val) (i : Nat) : String :=
  match matchedValues.get? i with
  | some v => if jsTruthy v then jsToString h v else "<unknown>"
  | none => "<unknown>"

/-- String.replaceAll over the global placeholder regex: scan the
template left to right, replacing each digit-run-in-braces occurrence.
Fuel is initialised to the character count, which always suffices since
every step consumes at least one character. -/
def renderTemplateF (h : Heap) (matchedValues : List Val) : Nat → List Char → List Char
  | 0, _ => []
  | _ + 1, [] => []
  | n + 1, c :: rest =>
    if c = openBrace then
      match digitsThenBrace rest with
      | some (i, rest2) => (placeholderReplacement h matchedValues i).data ++ renderTemplateF h matchedValues n rest2
      | none => c :: renderTemplateF h matchedValues n rest
    else c :: renderTemplateF h matchedValues n rest

def substPlaceholders (h : Heap) (matchedValues : List Val) (template : String) : String :=
  String.mk (renderTemplateF h matchedValues template.data.length template.data)

/-- A text-mapper rule: a literal fragment or a conditional fragment
(values to resolve, template on full match, fallback otherwise). -/
inductive TMItem where
  | lit (s : String)
  | cond (values : List String) (matchedString : String) (notMatchingString : String)
deriving DecidableEq, Repr

abbrev TextMapper := Option (List TMItem)

/--
Embeds processTextMapper: resolve each conditional fragment's paths with
recursiveSelect, keep the defined ones; when every path resolved,
substitute numbered placeholders in the template, else emit the
fallback; literal fragments pass through; join everything with single
spaces. (The source's try/catch cannot fire: no statement in the loop
throws.)
-/
def processTextMapper (h : Heap) (textMapper : TextMapper) (target : Option Val) : String :=
  let processedTextList := (textMapper.getD []).map (fun item =>
    match item with
    | .lit s => s
    | .cond values matchedString notMatchingString =>
      let matchedValues := (values.map (fun vMapper => recursiveSelectStr h vMapper target)).filterMap id
      if matchedValues.length == values.length then
        substPlaceholders h matchedValues matchedString
      else notMatchingString)
  String.intercalate " " processedTextList

/- ===== createBatcher (Request Batcher) ===== -/

/--
State of one batcher closure. timeoutSet models the truthiness of the
timeout variable (set by the first setTimeout and never nulled, even
after the timer fires or an immediate flush happens); timerPending
tracks whether a scheduled timer is still outstanding; lastUpdated is
the -Infinity-initialised flush timestamp (none = -Infinity); callbacks
are identified by numeric tokens.
-/
structure BatcherState (T : Type) where
  timeoutSet : Bool
  timerPending : Bool
  batched : List T
  pendingCallbacks : List Nat
  lastUpdated : Option Int
deriving Repr

def initBatcher (T : Type) : BatcherState T :=
  { timeoutSet := false, timerPending := false, batched := [], pendingCallbacks := [], lastUpdated := none }

/-- timeoutPeriod = options.periodInMs + 7 (the fixed skew). -/
def timeoutPeriod (periodInMs : Int) : Int := periodInMs + 7

/-- The immediate-flush test of set: (timeout truthy and at least
timeoutPeriod elapsed since the last flush) or more than 10 times
timeoutPeriod elapsed. With lastUpdated = -Infinity both comparisons
hold. -/
def staleFlushCond {T : Type} (tp now : Int) (s : BatcherState T) : Bool :=
  match s.lastUpdated with
  | none => true
  | some lu => (s.timeoutSet && decide (now - lu ≥ tp)) || decide (now - lu > tp * 10)

/--
Embeds one locked set call at time now: append the item and callback
when present, then either flush immediately (splice both queues, stamp
lastUpdated; the pending timer, if any, is not cleared) or clear and
restart the debounce timer. Returns the new state and the flush
snapshot, when one was taken.
-/
def batcherSet {T : Type} (tp now : Int) (item : Option T) (cb : Option Nat) (s : BatcherState T) :
    BatcherState T × Option (List T × List Nat) :=
  let s1 := { s with batched := s.batched ++ item.toList,
                     pendingCallbacks := s.pendingCallbacks ++ cb.toList }
  if staleFlushCond tp now s1 then
    ({ s1 with batched := [], pendingCallbacks := [], lastUpdated := some now },
     some (s1.batched, s1.pendingCallbacks))
  else
    ({ s1 with timeoutSet := true, timerPending := true }, none)

/-- The debounce timer firing at time now: splice both queues into a
flush snapshot and stamp lastUpdated; the timeout variable stays
truthy. -/
def batcherTimerFire {T : Type} (now : Int) (s : BatcherState T) :
    BatcherState T × (List T × List Nat) :=
  ({ s with batched := [], pendingCallbacks := [], lastUpdated := some now, timerPending := false },
   (s.batched, s.pendingCallbacks))

/-- A sequence of set calls (time, item, callback token), serialized as
the per-batcher lock does; collects every immediate-flush snapshot. -/
def batcherRun {T : Type} (tp : Int) : List (Int × T × Nat) → BatcherState T →
    BatcherState T × List (List T × List Nat)
  | [], s => (s, [])
  | (now, x, c) :: rest, s =>
    let r1 := batcherSet tp now (some x) (some c) s
    let r2 := batcherRun tp rest r1.1
    (r2.1, r1.2.toList ++ r2.2)

/- ===== processDeferredBatched: flush callback and cache merge ===== -/

/-- One per-endpoint cache entry: the append-only records list and the
processedValues list the source reads (but never writes). -/
structure BatchCacheEntry where
  cache : List Val
  processedValues : List Int
deriving DecidableEq, Repr

/-- The flush callback's dedup filter: keep values not already in
processedValues and not already kept in this flush (JS == on numbers). -/
def filterNewValues (processed : List Int) (values : List Int) : List Int :=
  values.foldl (fun acc v =>
    if (processed.any (fun cv => cv == v)) || (acc.any (fun fv => fv == v)) then acc
    else acc ++ [v]) []

/-- The unique-match key of a record: recursiveSelect with the
batchUniqueMatchMapper (the empty selector when that mapper is null). -/
def batchKey (h : Heap) (keyMapper : List String) (item : Val) : Option Val :=
  recursiveSelect h keyMapper (some item)

def sameBatchKey (h : Heap) (keyMapper : List String) (a b : Val) : Bool :=
  jsEqOpt (batchKey h keyMapper a) (batchKey h keyMapper b)

/-- The merge loop of the flush callback: push each returned record
unless some cached record already has a loosely equal unique-match key.
(The find predicate's reading.type == "batched" conjunct is constant in
this branch.) -/
def mergeRecords (h : Heap) (keyMapper : List String) : List Val → List Val → List Val
  | cache, [] => cache
  | cache, item :: rest =>
    if cache.any (fun ci => sameBatchKey h keyMapper item ci) then
      mergeRecords h keyMapper cache rest
    else
      mergeRecords h keyMapper (cache ++ [item]) rest

/--
Embeds the bulk callback createBatcher invokes for a deferred batched
endpoint: drop values already processed or duplicated, and when any
remain, post them (the remote response is a parameter standing for the
external ApiInterface), extract the record array with recursiveSelect
over the fetchMapper, and merge it into the cache. processedValues is
read for filtering but never written.
-/
def processDeferredBatchedFlush (h : Heap) (fetchMapper keyMapper : List String)
    (remote : List Int → Option Val) (entry : BatchCacheEntry) (values : Option (List Int)) :
    BatchCacheEntry :=
  match values with
  | none => entry
  | some vs =>
    let filteredValues := filterNewValues entry.processedValues vs
    if filteredValues.isEmpty then entry
    else
      match recursiveSelect h fetchMapper (remote filteredValues) with
      | some (.vaddr a) =>
        match nodeAt h a with
        | some (.arr items _) =>
          { entry with cache := mergeRecords h keyMapper entry.cache items }
        | _ => entry
      | _ => entry

/-- What a processDeferredBatched request does for a content value after
the synchronous cache probe and the processedValues gate. -/
inductive DeferredAction where
  | cachedResult (v : Val)
  | confirmedMiss
  | enqueue
deriving DecidableEq, Repr

/- ===== __recursiveLookup / recursiveLookup (cyclic-safe lookup) ===== -/

/-- Array.prototype.includes on the visited list: SameValueZero, which is
value equality for primitives and reference (address) equality for
objects. -/
def seenIncludes (seen : List (Option Val)) (t : Option Val) : Bool :=
  seen.any (fun x => decide (x = t))

def isStringOrNumber (t : Val) : Bool :=
  match t with
  | .vstr _ => true
  | .vnum _ => true
  | _ => false

/-- parent || target of the match branch. -/
def parentOr (parent : Option Val) (t : Val) : Val :=
  match parent with
  | some p => if jsTruthy p then p else t
  | none => t

/-- surfaceClone: primitives are returned as-is; an object clone is a
fresh node with the same fields ({...obj}); an array clone is a fresh
array of the same elements ([...obj] drops non-index properties). A
dangling address (impossible in JS) clones to an empty object. -/
def surfaceCloneH (h : Heap) (v : Val) : Heap × Val :=
  match v with
  | .vaddr a =>
    match nodeAt h a with
    | some (.obj fs) => (h ++ [.obj fs], .vaddr h.length)
    | some (.arr es _) => (h ++ [.arr es []], .vaddr h.length)
    | none => (h ++ [.obj []], .vaddr h.length)
  | _ => (h, v)

/-- Property assignment node[k] = v on the node at address a. -/
def setFieldH (h : Heap) (a : Nat) (k : String) (v : Val) : Heap :=
  match nodeAt h a with
  | some (.obj fs) => h.set a (.obj (assocSet fs k v))
  | some (.arr es ex) => h.set a (.arr es (assocSet ex k v))
  | none => h

/-- lastParent?.__parent__ (optional chaining: undefined and null give
undefined, a primitive has no such property). -/
def optChainParent (h : Heap) (cur : Option Val) : Option Val :=
  match cur with
  | none => none
  | some .vnull => none
  | some v => getField h v ("__parent__")

def walkParent (h : Heap) : Nat → Option Val → Option Val
  | 0, cur => cur
  | n + 1, cur => walkParent h n (optChainParent h cur)

/-- The setParent helper of __recursiveLookup: on a non-null result,
walk depth - root - 2 steps down the __parent__ chain (a negative count
means no steps) and, if the node reached is truthy and not the current
target itself, attach a shallow clone of the target as its __parent__.
Assigning a property on a primitive is a TypeError (strict mode),
modelled as the error case. -/
def setParentStep (h : Heap) (d root : Nat) (target : Val) (res : Option Val) :
    Except Unit Heap :=
  match res with
  | none => .ok h
  | some r =>
    match walkParent h (d - (root + 2)) (some r) with
    | none => .ok h
    | some lp =>
      if jsTruthy lp && !(decide (lp = target)) then
        match lp with
        | .vaddr a =>
          let hc := surfaceCloneH h target
          .ok (setFieldH hc.1 a ("__parent__") hc.2)
        | _ => .error ()
      else .ok h

/-- One iteration of the element loop in __recursiveLookup's array
branch: a finished accumulator (error or a found match, which in the
source breaks the loop) passes through; otherwise the element is
searched with the in-progress heap and a non-null result is kept
together with its depth. lk is the recursive search specialised to the
remaining segments. -/
def lookStep (lk : Heap → Val → Option (Except Unit (Heap × Nat × Option Val)))
    (acc : Option (Except Unit (Heap × Option (Nat × Val)))) (item : Val) :
    Option (Except Unit (Heap × Option (Nat × Val))) :=
  match acc with
  | none => none
  | some (.error e) => some (.error e)
  | some (.ok (h1, some dr)) => some (.ok (h1, some dr))
  | some (.ok (h1, none)) =>
    match lk h1 item with
    | none => none
    | some (.error e) => some (.error e)
    | some (.ok (h2, d, some r)) => some (.ok (h2, some (d, r)))
    | some (.ok (h2, _, none)) => some (.ok (h2, none))

/--
Embeds __recursiveLookup. Arguments follow the source (lookupMap as
segments, the searched value, the current target, the parent one level
up, the current depth root, and the visited list); the heap is threaded
explicitly, and fuel bounds the recursion depth (none = fuel exhausted,
which the termination theorem rules out for the wrapper's fuel). The
result carries the final heap, the depth field, and the result value
(null or the address of the freshly built record); Except models a JS
exception propagating to the wrapper's catch.

Branches, in source order: abandon a target already in the visited list;
null/undefined targets fail; on an array the head segment must be the
any-element marker and elements are tried in order, first match wins; on
an object descend into the field named by the head segment (or by the
searched value itself for the by-value marker; an exhausted map reads
the property named "undefined"), then run setParent on the way out; on a
primitive with the map exhausted, a string/number loosely equal to the
searched value yields a shallow clone of parent-or-target with the
toJson closure attached.
-/
def look : Nat → Heap → List String → Val → Option Val → Option Val → Nat →
    List (Option Val) → Option (Except Unit (Heap × Nat × Option Val))
  | 0, _, _, _, _, _, _, _ => none
  | fuel + 1, h, lookupMap, v, target, parent, root, seen =>
    if seenIncludes seen target then some (.ok (h, root, none))
    else
      match target with
      | none => some (.ok (h, root, none))
      | some .vnull => some (.ok (h, root, none))
      | some (.vaddr a) =>
        match nodeAt h a with
        | some (.arr es _) =>
          if !(lookupMap.head? == some ("[]")) then some (.ok (h, root, none))
          else
            let folded := es.foldl
              (lookStep (fun h1 item =>
                look fuel h1 (lookupMap.drop 1) v (some item) (some (.vaddr a)) (root + 1)
                  (seen ++ [some (.vaddr a)])))
              (some (.ok (h, none)))
            match folded with
            | none => none
            | some (.error e) => some (.error e)
            | some (.ok (h1, some (d, r))) =>
              match setParentStep h1 d root (.vaddr a) (some r) with
              | .error e => some (.error e)
              | .ok h2 => some (.ok (h2, d, some r))
            | some (.ok (h1, none)) => some (.ok (h1, root, none))
        | some (.obj fs) =>
          let key := if lookupMap.head? == some ("[value]") then valToKey v
                     else (lookupMap.head?).getD ("undefined")
          match look fuel h (lookupMap.drop 1) v (assocGet fs key) (some (.vaddr a)) (root + 1)
              (seen ++ [some (.vaddr a)]) with
          | none => none
          | some (.error e) => some (.error e)
          | some (.ok (h1, d, res)) =>
            match setParentStep h1 d root (.vaddr a) res with
            | .error e => some (.error e)
            | .ok h2 => some (.ok (h2, d, res))
        | none =>
          match look fuel h (lookupMap.drop 1) v none (some (.vaddr a)) (root + 1)
              (seen ++ [some (.vaddr a)]) with
          | none => none
          | some (.error e) => some (.error e)
          | some (.ok (h1, d, res)) =>
            match setParentStep h1 d root (.vaddr a) res with
            | .error e => some (.error e)
            | .ok h2 => some (.ok (h2, d, res))
      | some t =>
        if lookupMap.isEmpty then
          if isStringOrNumber t && jsEq t v then
            match surfaceCloneH h (parentOr parent t) with
            | (h1, .vaddr r) => some (.ok (setFieldH h1 r ("toJson") .vclosure, root, some (.vaddr r)))
            | (_, _) => some (.error ())
          else some (.ok (h, root, none))
        else some (.ok (h, root, none))

/-- The wrapper's fuel; the termination theorem shows it always
suffices. -/
def lookFuel (h : Heap) : Nat := h.length + 3

/--
Embeds recursiveLookup for a segment-list map: run __recursiveLookup
from the root (no parent, depth 0, empty visited list); a thrown
exception is caught and yields depth 0 with a null result (the source's
typeof-object test returns the same record either way). Heap mutations
made before a throw are not observable through the null result and are
dropped with it.
-/
def recursiveLookupL (h : Heap) (lookupMap : List String) (v : Val) (target : Option Val) :
    Heap × Nat × Option Val :=
  match look (lookFuel h) h lookupMap v target none 0 [] with
  | some (.ok out) => out
  | some (.error _) => (h, 0, none)
  | none => (h, 0, none)

/-- recursiveLookup on a string map: the source splits it on "." without
dropping empty segments. -/
def recursiveLookupStr (h : Heap) (lookupMap : String) (v : Val) (target : Option Val) :
    Heap × Nat × Option Val :=
  recursiveLookupL h (splitDot lookupMap) v target

/- ===== serializability (JSON.stringify cycle check) ===== -/

/-- The addresses JSON.stringify would recurse into from a node: all own
enumerable object fields and all array elements that are objects
(function values and non-index array properties are skipped). -/
def nodeSerChildAddrs (n : Node) : List Nat :=
  match n with
  | .obj fs => fs.filterMap (fun p => match p.2 with | .vaddr a => some a | _ => none)
  | .arr es _ => es.filterMap (fun e => match e with | .vaddr a => some a | _ => none)

def serChildren (h : Heap) (a : Nat) : List Nat :=
  match nodeAt h a with
  | some n => nodeSerChildAddrs n
  | none => []

def stepReach (h : Heap) (l : List Nat) : List Nat :=
  (l ++ l.flatMap (serChildren h)).dedup

def reachListF (h : Heap) : Nat → List Nat → List Nat
  | 0, l => l
  | n + 1, l => reachListF h n (stepReach h l)

def reachAddrs (h : Heap) (start : List Nat) : List Nat :=
  reachListF h (h.length + 1) start

/-- JSON.stringify of the value throws a circular-structure error
exactly when some node reachable from it lies on a cycle of the
serialized graph. -/
def hasCycleFromVal (h : Heap) (v : Val) : Bool :=
  match v with
  | .vaddr a =>
    (reachAddrs h [a]).any (fun b => (reachAddrs h (serChildren h b)).any (fun c => c == b))
  | _ => false

/-- The request path of processDeferredBatched after the flush: probe
the cache with recursiveLookup (the cache array is materialised as a
heap node), then gate on processedValues: a processed value returns null
(a confirmed miss) without enqueueing, an unprocessed one is enqueued on
the batcher. -/
def deferredRequestAction (h : Heap) (valueMapper : List String) (entry : BatchCacheEntry)
    (contentValue : Int) : DeferredAction :=
  let h1 := h ++ [Node.arr entry.cache []]
  let probe := recursiveLookupL h1 valueMapper (.vnum contentValue) (some (.vaddr h.length))
  match probe.2.2 with
  | some found => .cachedResult found
  | none =>
    if entry.processedValues.any (fun pv => pv == contentValue) then .confirmedMiss
    else .enqueue

/- ===== fetchExtraInfo (extras resolver) ===== -/

inductive ExtraEntry where
  | found (value : Val)
  | notFound
deriving Repr

/-- The observable outcome of awaiting the extras batcher for this epc:
the flush ran and left the memo in a new state; the flush failed and the
completion callback received the error; or acquiring the set lock timed
out, so the set promise rejected inside the promise executor. -/
inductive ExtrasFlushOutcome where
  | flushed (memo1 : String → Option ExtraEntry)
  | flushError
  | lockTimeout

/-- How the promise returned by fetchExtraInfo settles. -/
inductive FetchResult where
  | resolves (v : Option Val)
  | rejects
  | hangs
deriving DecidableEq, Repr

/--
Embeds the fetchExtraInfo closure attached to a resolved record: a memo
hit answers from extrasProcessedTags; otherwise the call awaits the
batcher completion: an error reaches reject(error) before resolve(), so
the promise rejects; a lock timeout makes the inner await throw inside
the async promise executor, so the outer promise never settles; a
successful flush re-reads the memo and resolves with the value or null.
-/
def fetchExtraInfo (memo0 : String → Option ExtraEntry) (tagEpc : String)
    (outcome : ExtrasFlushOutcome) : FetchResult :=
  match memo0 tagEpc with
  | some (.found v) => .resolves (some v)
  | some .notFound => .resolves none
  | none =>
    match outcome with
    | .flushError => .rejects
    | .lockTimeout => .hangs
    | .flushed memo1 =>
      match memo1 tagEpc with
      | some (.found v) => .resolves (some v)
      | _ => .resolves none

/- ===== content types and dispatch ===== -/

def listStarts : List Char → List Char → Bool
  | [], _ => true
  | _ :: _, [] => false
  | p :: ps, c :: cs => p == c && listStarts ps cs

/-- String.replaceAll with a literal nonempty pattern: replace
non-overlapping occurrences left to right. Fuel is the character count,
which suffices since every step consumes at least one character. -/
def replaceAllF (pat rep : List Char) : Nat → List Char → List Char
  | 0, _ => []
  | _ + 1, [] => []
  | n + 1, c :: cs =>
    if listStarts pat (c :: cs) then rep ++ replaceAllF pat rep n ((c :: cs).drop pat.length)
    else c :: replaceAllF pat rep n cs

def replaceAllStr (s pat rep : String) : String :=
  String.mk (replaceAllF pat.data rep.data s.data.length s.data)

inductive DeferredReading where
  | batched (fetchUrlPath bodyKeyForValuesList : String) (fetchMapper : Option String)
      (batchUniqueMatchMapper : Option String) (valueMapper : Option String)
      (textMapper : TextMapper)
  | single (urlPath bodyKey : String) (valueMapper : Option String) (textMapper : TextMapper)
deriving DecidableEq, Repr

/-- The tagged content-type variants (TagContentTypeWithData); the
fetchedList variant carries the data resolved at load time. The legacy
variant is keyed by content_type_id instead of contentTypeId. -/
inductive TagContentType where
  | fixed (contentTypeId : Int) (display name : String) (value : Int) (textFormatter : String)
  | manual (contentTypeId : Int) (display name : String) (textFormatter : String)
  | enum (contentTypeId : Int) (display name : String) (values : List (String × Int))
  | deferred (contentTypeId : Int) (display name : String) (reading : DeferredReading)
  | fetchedList (contentTypeId : Int) (display name : String) (fetchMapper : Option String)
      (textMapper : TextMapper) (valueMapper : Option String) (data : Option Val)
  | legacy (name display : String) (content_type_id : Int)
deriving DecidableEq, Repr

def isLegacy (ct : TagContentType) : Bool :=
  match ct with
  | .legacy _ _ _ => true
  | _ => false

/-- The id the find callback compares: content_type_id for a legacy
definition, contentTypeId otherwise. -/
def contentTypeIdOf (ct : TagContentType) : Int :=
  match ct with
  | .fixed i _ _ _ _ => i
  | .manual i _ _ _ => i
  | .enum i _ _ _ => i
  | .deferred i _ _ _ => i
  | .fetchedList i _ _ _ _ _ _ => i
  | .legacy _ _ i => i

/-- tagContentTypes.find over the decoded content-type id. -/
def findContentType (defs : List TagContentType) (contentTypeId : Int) : Option TagContentType :=
  defs.find? (fun ct => contentTypeIdOf ct == contentTypeId)

/-- The variant payload of a uniform result record. The deferred variant
records whether the lazily-invokable fetch capability is attached (it is
absent without an api client); the enum variant carries the matched
table entry; the fetchedList variant carries the matched record and
display. -/
inductive TagInfoVariant where
  | deferredInfo (reading : DeferredReading) (hasFetch : Bool)
  | manualInfo
  | fixedInfo
  | fetchedListInfo (value : Val) (display : String)
  | enumInfo (valueText : String) (valueNum : Int)
deriving DecidableEq, Repr

structure TagInfoRec where
  text : String
  contentTypeId : Int
  contentValue : Int
  variant : TagInfoVariant
deriving DecidableEq, Repr

/-- [TagEpc] / [TagContentTypeId] / [TagContentValue] substitution of
the fixed and manual formatters. -/
def formatTagText (textFormatter tagEpc : String) (contentTypeId contentValue : Int) : String :=
  replaceAllStr
    (replaceAllStr (replaceAllStr textFormatter ("[TagEpc]") tagEpc)
      ("[TagContentTypeId]") (toString contentTypeId))
    ("[TagContentValue]") (toString contentValue)

/-- getDeferredTagInfo: always a record; fetch is attached only when an
api client exists. -/
def getDeferredTagInfo (reading : DeferredReading) (display : String) (apiClient : Bool)
    (contentTypeId contentValue : Int) : TagInfoRec :=
  { text := "the tag of type " ++ display ++ ", with value " ++ toString contentValue ++ " stored on tag",
    contentTypeId := contentTypeId, contentValue := contentValue,
    variant := .deferredInfo reading apiClient }

/-- getEnumTagInfo: exact match of the content value against the table,
null when absent. -/
def getEnumTagInfo (values : List (String × Int)) (contentTypeId contentValue : Int) :
    Option TagInfoRec :=
  match values.find? (fun ev => ev.2 == contentValue) with
  | none => none
  | some ev =>
    some { text := ev.1, contentTypeId := contentTypeId, contentValue := contentValue,
           variant := .enumInfo ev.1 ev.2 }

/-- getFetchedListTagInfo: recursiveLookup over the load-time data; a
match renders through the Text Mapper (an empty rendering degrades to
"unknown"); no match is null. The lookup's clone allocations extend the
heap. -/
def getFetchedListTagInfo (h : Heap) (textMapper : TextMapper) (valueMapper : Option String)
    (data : Option Val) (display : String) (contentTypeId contentValue : Int) :
    Heap × Option TagInfoRec :=
  let segs := match valueMapper with
    | none => []
    | some s => splitDot s
  let probe := recursiveLookupL h segs (.vnum contentValue) data
  match probe.2.2 with
  | some found =>
    let rendered := processTextMapper probe.1 textMapper (some found)
    (probe.1,
     some { text := if rendered == "" then "unknown" else rendered,
            contentTypeId := contentTypeId, contentValue := contentValue,
            variant := .fetchedListInfo found display })
  | none => (probe.1, none)

/--
Embeds getTagInfoFromValuesWithoutExtraFetcher: find the definition for
the decoded content-type id and dispatch on its variant. The if chain
has no legacy branch, so a legacy definition falls through to the final
null. getTagInfoFromValues only spreads an optional fetchExtraInfo onto
a non-null result, so its nullness is identical.
-/
def getTagInfoFromValuesWithoutExtraFetcher (h : Heap) (defs : List TagContentType)
    (apiClient : Bool) (tagEpc : String) (contentId contentValue : Int) :
    Heap × Option TagInfoRec :=
  match findContentType defs contentId with
  | none => (h, none)
  | some ct =>
    match ct with
    | .deferred _ display _ reading =>
      (h, some (getDeferredTagInfo reading display apiClient contentId contentValue))
    | .enum _ _ _ values => (h, getEnumTagInfo values contentId contentValue)
    | .fetchedList _ display _ _ textMapper valueMapper data =>
      getFetchedListTagInfo h textMapper valueMapper data display contentId contentValue
    | .fixed _ _ _ _ textFormatter =>
      (h, some { text := formatTagText textFormatter tagEpc contentId contentValue,
                 contentTypeId := contentId, contentValue := contentValue, variant := .fixedInfo })
    | .manual _ _ _ textFormatter =>
      (h, some { text := formatTagText textFormatter tagEpc contentId contentValue,
                 contentTypeId := contentId, contentValue := contentValue, variant := .manualInfo })
    | .legacy _ _ _ => (h, none)

/-- The routes findTagInfo can take once the EPC decodes: a null result
(empty epc or undecodable numbers), a resolved result record, or the
fall-through to the virtual-redirection path maybeVirtual() (which then
answers from the virtual memo, returns null, or hands out a maybeVirtual
fetch capability, depending on state and configuration). -/
inductive FindOutcome where
  | nullResult
  | infoResult (h : Heap) (info : TagInfoRec)
  | virtualPath
deriving DecidableEq, Repr

/--
Embeds the spine of findTagInfo: reject a falsy epc, decode it, find the
content-type definition (legacy definitions match by content_type_id);
with a definition, dispatch through getTagInfoFromValues and fall
through to maybeVirtual() when it returned null; without one, go to
maybeVirtual() directly.
-/
def findTagInfoCore (h : Heap) (defs : List TagContentType) (apiClient : Bool)
    (tagEpc : String) : FindOutcome :=
  if tagEpc == "" then .nullResult
  else
    match getTagNumbers tagEpc with
    | none => .nullResult
    | some (contentTypeId, contentValue) =>
      match findContentType defs contentTypeId with
      | some _ =>
        match getTagInfoFromValuesWithoutExtraFetcher h defs apiClient tagEpc contentTypeId contentValue with
        | (h1, some info) => .infoResult h1 info
        | (_, none) => .virtualPath
      | none => .virtualPath

/- ===== maybeVirtual fetch (virtual redirection retry loop) ===== -/

inductive VirtEntry where
  | vfound (contentId contentValue : Int)
  | vnotFound
deriving Repr

/--
Embeds the fetch capability of a maybeVirtual result. reads k is the
k-th read of virtuallyProcessedTags[tagEpc] (the memo is read once
before awaiting the batcher and once after, per attempt), so a batcher
that never populates the memo is reads = fun _ => none. Each attempt at
or above the ceiling of 5 throws; an unpopulated memo after the awaited
flush retries with attemptCount + 1. (A flush error would reject the
awaited promise before the re-read; flush completions are taken as
successful here, as in the claim's scenario.) A found entry dispatches
the substitute numbers through getTagInfoFromValues.
-/
def virtualFetchGo (h : Heap) (defs : List TagContentType) (tagEpc : String)
    (reads : Nat → Option VirtEntry) (k : Nat) (attemptCount : Nat) :
    Except String (Option TagInfoRec) :=
  if _hac : attemptCount ≥ 5 then .error ("failed to fetch tag info " ++ tagEpc)
  else
    match reads k with
    | some (.vfound ci cv) =>
      .ok (getTagInfoFromValuesWithoutExtraFetcher h defs true tagEpc ci cv).2
    | some .vnotFound => .ok none
    | none =>
      match reads (k + 1) with
      | some (.vfound ci cv) =>
        .ok (getTagInfoFromValuesWithoutExtraFetcher h defs true tagEpc ci cv).2
      | some .vnotFound => .ok none
      | none => virtualFetchGo h defs tagEpc reads (k + 2) (attemptCount + 1)
termination_by 5 - attemptCount
decreasing_by omega

/- ===== analysis predicates for the lookup theorems ===== -/

/-- Addresses on the visited list. -/
def seenAddrSet (seen : List (Option Val)) : Finset Nat :=
  seen.foldr (fun t acc =>
    match t with
    | some (.vaddr a) => insert a acc
    | _ => acc) ∅

/-- Valid heap addresses not yet visited: the recursion measure of
look. -/
def lookMeasure (h : Heap) (seen : List (Option Val)) : Nat :=
  ((Finset.range h.length).filter (fun a => a ∉ seenAddrSet seen)).card

/-- The values a node stores (object fields, array elements and extra
properties). -/
def nodeVals (n : Node) : List Val :=
  match n with
  | .obj fs => fs.map (fun p => p.2)
  | .arr es ex => es ++ ex.map (fun p => p.2)

/-- A node with neither synthetic field name the lookup attaches. -/
def nodeClean (n : Node) : Bool :=
  match n with
  | .obj fs => fs.all (fun p => p.1 != "__parent__" && p.1 != "toJson")
  | .arr _ ex => ex.all (fun p => p.1 != "__parent__" && p.1 != "toJson")

/-- Input graphs that use neither synthetic field name. -/
def CleanHeap (h : Heap) : Prop := ∀ n ∈ h, nodeClean n = true

/-- Every address stored in a node is a valid heap address (always true
of a heap reflecting real JS objects). -/
def WFHeap (h : Heap) : Prop :=
  ∀ n ∈ h, ∀ v ∈ nodeVals n, ∀ a, v = Val.vaddr a → a < h.length

/-- A node with the synthetic fields removed; for arrays also the
JSON-invisible extra properties. -/
def stripNode (n : Node) : Node :=
  match n with
  | .obj fs => .obj (fs.filter (fun p => p.1 != "__parent__" && p.1 != "toJson"))
  | .arr es _ => .arr es []

def parentFieldOf (n : Node) : Option Val :=
  match n with
  | .obj fs => assocGet fs ("__parent__")
  | .arr _ ex => assocGet ex ("__parent__")

def heapExt (h h2 : Heap) : Prop := ∃ ext, h2 = h ++ ext

/-- Every fresh node's __parent__ field, when present, holds a fresh
valid address: the back-reference chain stays within the clones. -/
def FreshParentOk (h0 h2 : Heap) : Prop :=
  ∀ a n, h0.length ≤ a → nodeAt h2 a = some n →
    ∀ pv, parentFieldOf n = some pv →
      ∃ b, pv = Val.vaddr b ∧ h0.length ≤ b ∧ b < h2.length

/-- The relation look maintains between the parent argument and the
target: at the root there is no parent; otherwise the parent is the node
the target was read from (or the target is the undefined result of a
missing property). -/
def ParentHyp (h : Heap) (parent target : Option Val) : Prop :=
  parent = none ∨ target = none ∨
    ∃ pa n, parent = some (Val.vaddr pa) ∧ nodeAt h pa = some n ∧
      ∀ tv, target = some tv → tv ∈ nodeVals n

/-- What a successful lookup returns: a fresh record whose
JSON-relevant fields are exactly those of a node of the input graph that
directly contains a string-or-number leaf loosely equal to the searched
value — the enclosing record one level above the matched leaf. -/
def LookSuccess (h0 h2 : Heap) (r v : Val) : Prop :=
  ∃ ra, r = Val.vaddr ra ∧ h0.length ≤ ra ∧ ra < h2.length ∧ heapExt h0 h2 ∧
    FreshParentOk h0 h2 ∧
    ∃ pa n, pa < h0.length ∧ nodeAt h0 pa = some n ∧
      (∃ c ∈ nodeVals n, isStringOrNumber c = true ∧ jsEq c v = true) ∧
      ∃ rn, nodeAt h2 ra = some rn ∧ stripNode rn = stripNode n

/-- The node after a property write (the heap-level setFieldH updates
the address with exactly this node). -/
def setNodeField (n : Node) (k : String) (v : Val) : Node :=
  match n with
  | .obj fs => .obj (assocSet fs k v)
  | .arr es ex => .arr es (assocSet ex k v)

/-- The fresh node surfaceCloneH appends for an address whose node
exists. -/
def cloneNode (n : Node) : Node :=
  match n with
  | .obj fs => .obj fs
  | .arr es _ => .arr es []

/-- cur is absent or a fresh valid address. -/
def FreshVal (h h1 : Heap) (cur : Option Val) : Prop :=
  cur = none ∨ ∃ b, cur = some (Val.vaddr b) ∧ h.length ≤ b ∧ b < h1.length

/-- The two-chunk parse getTagNumbers performs, written directly on the
character list it chunks: parse characters 0..7 and 8..15 as hex and
pair them when both are valid. -/
def twoChunkParse (l : List Char) : Option (Int × Int) :=
  match parseIntHex (String.mk (l.take 8)), parseIntHex (String.mk ((l.drop 8).take 8)) with
  | some a, some b => some (a, b)
  | _, _ => none

/-
  =====================  THEOREMS  =====================
-/

theorem data_mk (l : List Char) : (String.mk l).data = l := rfl

theorem chunksOf8F_get0 (n : Nat) (l : List Char) (hn : l.length ≤ n) :
    (chunksOf8F n l).get? 0 = if l.isEmpty then none else some (l.take 8) := by
  cases l with
  | nil => cases n <;> simp [chunksOf8F]
  | cons c cs =>
    cases n with
    | zero => simp at hn
    | succ n' => simp [chunksOf8F]

theorem chunksOf8F_get1 (n : Nat) (l : List Char) (hn : l.length ≤ n) :
    (chunksOf8F n l).get? 1 = if l.length ≤ 8 then none else some ((l.drop 8).take 8) := by
  cases l with
  | nil => cases n <;> simp [chunksOf8F]
  | cons c cs =>
    cases n with
    | zero => simp at hn
    | succ n' =>
      have hlen : (cs.drop 7).length ≤ n' := by
        simp only [List.length_cons] at hn
        simp only [List.length_drop]
        omega
      have h0 := chunksOf8F_get0 n' (cs.drop 7) hlen
      simp only [chunksOf8F, List.get?_cons_succ, h0]
      have hd : (c :: cs).drop 8 = cs.drop 7 := rfl
      by_cases hc : (c :: cs).length ≤ 8
      · have hc' : cs.length ≤ 7 := by simpa using hc
        have hnil : cs.drop 7 = [] := by
          apply List.drop_eq_nil_iff.mpr
          omega
        simp [hnil, hc']
      · have hc' : ¬ cs.length ≤ 7 := by simpa using hc
        have hne : cs.drop 7 ≠ [] := by
          intro he
          have := List.drop_eq_nil_iff.mp he
          omega
        have hemp : (cs.drop 7).isEmpty = false := by
          simpa [List.isEmpty_iff] using hne
        simp [hemp, hc', hd]

theorem parseIntHex_of_allHex (l : List Char) (hne : l ≠ [])
    (hhex : ∀ c ∈ l, isHexDigit c = true) : (parseIntHex (String.mk l)).isSome := by
  have ht : l.takeWhile isHexDigit = l := List.takeWhile_eq_self_iff.mpr hhex
  unfold parseIntHex
  simp only [data_mk]
  rw [ht]
  cases l with
  | nil => exact absurd rfl hne
  | cons c cs => simp

theorem parseIntHex_nil : parseIntHex (String.mk []) = none := rfl

theorem parseIntHex_empty : parseIntHex "" = none := rfl

theorem mk_nil_eq : String.mk [] = "" := rfl

theorem chunkBody_eq (l : List Char) :
    (let chunks := chunksOf8 l
     let v1 := (Option.map String.mk (chunks.get? 0)).bind parseIntHex
     let v2 := (Option.map String.mk (chunks.get? 1)).bind parseIntHex
     if isValidNumberOpt v1 = true ∧ isValidNumberOpt v2 = true then
       match v1, v2 with
       | some a, some b => some (a, b)
       | _, _ => none
     else none) = twoChunkParse l := by
  simp only [chunksOf8]
  rw [chunksOf8F_get0 l.length l (le_refl _), chunksOf8F_get1 l.length l (le_refl _)]
  unfold twoChunkParse
  by_cases h0 : l.isEmpty
  · have hn : l = [] := List.isEmpty_iff.mp h0
    subst hn
    simp [parseIntHex_nil, parseIntHex_empty, mk_nil_eq, isValidNumberOpt]
  · by_cases h8 : l.length ≤ 8
    · have hdn : (l.drop 8).take 8 = [] := by
        have hd : l.drop 8 = [] := List.drop_eq_nil_iff.mpr h8
        simp [hd]
      rw [hdn]
      simp only [h0, if_false, h8, if_true, isValidNumberOpt]
      simp only [mk_nil_eq, parseIntHex_empty]
      cases hp : parseIntHex (String.mk (l.take 8)) <;> simp
    · simp only [h0, if_false, h8, if_false, isValidNumberOpt]
      cases hp1 : parseIntHex (String.mk (l.take 8)) <;>
        cases hp2 : parseIntHex (String.mk ((l.drop 8).take 8)) <;>
          simp [hp1, hp2]

theorem getTagNumbers_eq_twoChunk (s : String) :
    getTagNumbers s = twoChunkParse (if s.length ≥ 32 then s.data.drop 8 else s.data) := by
  by_cases hc : s.length ≥ 32
  · have hb : getTagNumbers s =
        (let chunks := chunksOf8 (s.data.drop 8)
         let v1 := (Option.map String.mk (chunks.get? 0)).bind parseIntHex
         let v2 := (Option.map String.mk (chunks.get? 1)).bind parseIntHex
         if isValidNumberOpt v1 = true ∧ isValidNumberOpt v2 = true then
           match v1, v2 with
           | some a, some b => some (a, b)
           | _, _ => none
         else none) := by
      unfold getTagNumbers
      rw [if_pos hc]
    rw [hb, chunkBody_eq, if_pos hc]
  · have hb : getTagNumbers s =
        (let chunks := chunksOf8 s.data
         let v1 := (Option.map String.mk (chunks.get? 0)).bind parseIntHex
         let v2 := (Option.map String.mk (chunks.get? 1)).bind parseIntHex
         if isValidNumberOpt v1 = true ∧ isValidNumberOpt v2 = true then
           match v1, v2 with
           | some a, some b => some (a, b)
           | _, _ => none
         else none) := by
      unfold getTagNumbers
      rw [if_neg hc]
    rw [hb, chunkBody_eq, if_neg hc]

theorem getTagNumbersWindow_eq_twoChunk (s : String) :
    getTagNumbersWindow s = twoChunkParse (if s.length ≥ 32 then s.data.drop 8 else s.data) := by
  have htake : ∀ l : List Char, twoChunkParse (l.take 16) = twoChunkParse l := by
    intro l
    unfold twoChunkParse
    rw [List.take_take, List.drop_take, List.take_take]
    norm_num
  by_cases hc : s.length ≥ 32
  · have hb : getTagNumbersWindow s = twoChunkParse ((s.data.drop 8).take 16) := by
      unfold getTagNumbersWindow twoChunkParse
      rw [if_pos hc]
    rw [hb, htake, if_pos hc]
  · have hb : getTagNumbersWindow s = twoChunkParse (s.data.take 16) := by
      unfold getTagNumbersWindow twoChunkParse
      rw [if_neg hc]
    rw [hb, htake, if_neg hc]

theorem getTagNumbers_eq_window_all (s : String) : getTagNumbers s = getTagNumbersWindow s := by
  rw [getTagNumbers_eq_twoChunk, getTagNumbersWindow_eq_twoChunk]

theorem twoChunkParse_none_iff (l : List Char) (hhex : ∀ c ∈ l, isHexDigit c = true) :
    twoChunkParse l = none ↔ l.length ≤ 8 := by
  unfold twoChunkParse
  by_cases h8 : l.length ≤ 8
  · have hd : l.drop 8 = [] := List.drop_eq_nil_iff.mpr h8
    rw [hd]
    simp only [List.take_nil, mk_nil_eq, parseIntHex_empty]
    constructor
    · intro _; exact h8
    · intro _
      cases hp : parseIntHex (String.mk (l.take 8)) <;> simp
  · have hne1 : l.take 8 ≠ [] := by
      intro he
      rcases List.take_eq_nil_iff.mp he with h | h
      · omega
      · subst h; simp at h8
    have hne2 : (l.drop 8).take 8 ≠ [] := by
      intro he
      rcases List.take_eq_nil_iff.mp he with h | h
      · omega
      · have := List.drop_eq_nil_iff.mp h
        omega
    have hs1 := parseIntHex_of_allHex (l.take 8) hne1
      (fun c hc => hhex c (List.take_subset 8 l hc))
    have hs2 := parseIntHex_of_allHex ((l.drop 8).take 8) hne2
      (fun c hc => hhex c (List.drop_subset 8 l (List.take_subset 8 (l.drop 8) hc)))
    rcases Option.isSome_iff_exists.mp hs1 with ⟨a, ha⟩
    rcases Option.isSome_iff_exists.mp hs2 with ⟨b, hb⟩
    rw [ha, hb]
    simp [h8]

/-- C3 (counterexample): the claim says decoding takes the last 16 hex
characters, but on a 32-character EPC getTagNumbers decodes characters
8..23: the code yields (1, 2) where the last-16 rule the claim states
yields (2, 3). -/
theorem getTagNumbers_not_last16 :
    getTagNumbers ("00000000000000010000000200000003") = some (1, 2) ∧
    specTagNumbersLast16 ("00000000000000010000000200000003") = some (2, 3) ∧
    getTagNumbers ("00000000000000010000000200000003") ≠
      specTagNumbersLast16 ("00000000000000010000000200000003") := by
  refine ⟨by decide, by decide, by decide⟩

/-- C3 (amended): getTagNumbers decodes the window of characters 8..23
when the EPC has at least 32 characters and the first 16 characters
otherwise, splitting it into two 8-character chunks parsed as hex (so
repeated calls agree with the manual splitting of that window), and on a
hex string it returns null, never throwing, exactly when fewer than two
chunks exist (length at most 8). -/
theorem getTagNumbers_window_amended (s : String) :
    getTagNumbers s = getTagNumbersWindow s ∧
      ((∀ c ∈ s.data, isHexDigit c = true) → (getTagNumbers s = none ↔ s.length ≤ 8)) := by
  constructor
  · exact getTagNumbers_eq_window_all s
  · intro hhex
    rw [getTagNumbers_eq_twoChunk]
    by_cases hc : s.length ≥ 32
    · rw [if_pos hc]
      have hlen : (s.data.drop 8).length = s.length - 8 := by
        simp [List.length_drop]
      rw [twoChunkParse_none_iff _ (fun c hcc => hhex c (List.drop_subset 8 s.data hcc))]
      omega
    · rw [if_neg hc]
      rw [twoChunkParse_none_iff _ hhex]
      have hsd : s.data.length = s.length := rfl
      omega

/-- C3 (witness): the amended theorem applied to a concrete 16-digit
EPC. -/
theorem getTagNumbers_window_witness :
    (getTagNumbers ("0000000100000002") = getTagNumbersWindow ("0000000100000002")) ∧
      (getTagNumbers ("0000000100000002") = none ↔ ("0000000100000002" : String).length ≤ 8) :=
  ⟨(getTagNumbers_window_amended ("0000000100000002")).1,
   (getTagNumbers_window_amended ("0000000100000002")).2 (by decide)⟩

theorem filterMap_id_lt_of_none {α : Type} (l : List (Option α)) (hx : ∃ x ∈ l, x = none) :
    (l.filterMap id).length < l.length := by
  induction l with
  | nil => simp at hx
  | cons a as ih =>
    rcases hx with ⟨x, hmem, hxn⟩
    rcases List.mem_cons.mp hmem with h | h
    · subst h
      subst hxn
      have h1 : List.filterMap id (none :: as) = List.filterMap id as := by simp
      have h2 := List.length_filterMap_le id as
      rw [h1]
      simp only [List.length_cons]
      omega
    · have hlt := ih ⟨x, h, hxn⟩
      cases a with
      | none =>
        have h1 : List.filterMap id (none :: as) = List.filterMap id as := by simp
        rw [h1]
        simp only [List.length_cons]
        omega
      | some v =>
        have h1 : List.filterMap id (some v :: as) = v :: List.filterMap id as := by simp
        rw [h1]
        simp only [List.length_cons]
        omega

theorem filterMap_id_len_eq_of_all {α : Type} (l : List (Option α))
    (h : ∀ x ∈ l, x.isSome = true) : (l.filterMap id).length = l.length := by
  induction l with
  | nil => simp
  | cons a as ih =>
    cases a with
    | none =>
      have := h none (List.mem_cons_self _ _)
      simp at this
    | some v =>
      have h1 : List.filterMap id (some v :: as) = v :: List.filterMap id as := by simp
      rw [h1]
      simp only [List.length_cons]
      rw [ih (fun x hx => h x (List.mem_cons_of_mem _ hx))]

theorem processTextMapper_fallback (h : Heap) (vals : List String) (ms nms : String)
    (target : Option Val) (hmiss : ∃ p ∈ vals, recursiveSelectStr h p target = none) :
    processTextMapper h (some [TMItem.cond vals ms nms]) target = nms := by
  unfold processTextMapper
  simp only [Option.getD_some, List.map_cons, List.map_nil]
  have hlt : ((vals.map (fun vMapper => recursiveSelectStr h vMapper target)).filterMap id).length
      < vals.length := by
    rcases hmiss with ⟨p, hp, hn⟩
    have := filterMap_id_lt_of_none (vals.map (fun vMapper => recursiveSelectStr h vMapper target))
      ⟨recursiveSelectStr h p target, List.mem_map_of_mem _ hp, hn⟩
    simpa using this
  have hne : (((vals.map (fun vMapper => recursiveSelectStr h vMapper target)).filterMap id).length
      == vals.length) = false := by
    simp only [beq_eq_false_iff_ne]
    omega
  rw [hne]
  simp only [Bool.false_eq_true, if_false]
  rfl

theorem processTextMapper_allmatch (h : Heap) (vals : List String) (ms nms : String)
    (target : Option Val) (hall : ∀ p ∈ vals, (recursiveSelectStr h p target).isSome = true) :
    processTextMapper h (some [TMItem.cond vals ms nms]) target =
      substPlaceholders h ((vals.map (fun p => recursiveSelectStr h p target)).filterMap id) ms := by
  unfold processTextMapper
  simp only [Option.getD_some, List.map_cons, List.map_nil]
  have hlen : ((vals.map (fun vMapper => recursiveSelectStr h vMapper target)).filterMap id).length
      = vals.length := by
    have hmain := filterMap_id_len_eq_of_all
      (vals.map (fun vMapper => recursiveSelectStr h vMapper target))
      (by
        intro x hx
        rcases List.mem_map.mp hx with ⟨p, hp, hrw⟩
        rw [← hrw]
        exact hall p hp)
    rw [hmain, List.length_map]
  have heq : (((vals.map (fun vMapper => recursiveSelectStr h vMapper target)).filterMap id).length
      == vals.length) = true := by
    rw [hlen]
    exact beq_self_eq_true _
  rw [heq]
  simp only [if_true]
  rfl

/-- C9 (counterexample): against the record with name "John", the
spec's example rules render "John␣␣yeahhhhh" with two spaces (the
literal fragment keeps its own leading space and fragments are joined
with a further single space), not the claimed "John yeahhhhh"; likewise
the fallback case; and a defined but falsy resolved value renders the
unknown-value marker at an in-range numeric placeholder index,
contradicting the claim's "only for out-of-range or non-numeric". -/
theorem processTextMapper_example_double_space :
    (processTextMapper ([Node.obj [("name", Val.vstr "John")]])
        (some [TMItem.cond (["name"]) ("{0}") ("missing"), TMItem.lit (" yeahhhhh")])
        (some (Val.vaddr 0)) = "John  yeahhhhh") ∧
    (processTextMapper ([Node.obj []])
        (some [TMItem.cond (["name"]) ("{0}") ("missing"), TMItem.lit (" yeahhhhh")])
        (some (Val.vaddr 0)) = "missing  yeahhhhh") ∧
    (processTextMapper ([Node.obj [("name", Val.vstr "")]])
        (some [TMItem.cond (["name"]) ("{0}") ("missing")])
        (some (Val.vaddr 0)) = "<unknown>") ∧
    ("John  yeahhhhh" ≠ "John yeahhhhh") ∧ ("missing  yeahhhhh" ≠ "missing yeahhhhh") := by
  refine ⟨by decide, by decide, by decide, by decide, by decide⟩

/-- C9 (amended): a conditional fragment whose paths do not all resolve
emits the fallback; when all resolve, numbered placeholders are
substituted with the resolved values in order, the unknown-value marker
being rendered for out-of-range indexes and for falsy resolved values
(a non-numeric index cannot occur, the placeholder pattern only matches
digits); literal fragments pass through unchanged and fragments are
joined with single spaces, so the spec's example rules yield
"John␣␣yeahhhhh" (two spaces, the literal fragment keeping its leading
space) and "missing␣␣yeahhhhh". -/
theorem processTextMapper_amended :
    (∀ (h : Heap) (vals : List String) (ms nms : String) (target : Option Val),
        (∃ p ∈ vals, recursiveSelectStr h p target = none) →
          processTextMapper h (some [TMItem.cond vals ms nms]) target = nms) ∧
    (∀ (h : Heap) (vals : List String) (ms nms : String) (target : Option Val),
        (∀ p ∈ vals, (recursiveSelectStr h p target).isSome = true) →
          processTextMapper h (some [TMItem.cond vals ms nms]) target =
            substPlaceholders h ((vals.map (fun p => recursiveSelectStr h p target)).filterMap id) ms) ∧
    (processTextMapper ([Node.obj [("name", Val.vstr "John")]])
        (some [TMItem.cond (["name"]) ("{0}") ("missing"), TMItem.lit (" yeahhhhh")])
        (some (Val.vaddr 0)) = "John  yeahhhhh") ∧
    (processTextMapper ([Node.obj []])
        (some [TMItem.cond (["name"]) ("{0}") ("missing"), TMItem.lit (" yeahhhhh")])
        (some (Val.vaddr 0)) = "missing  yeahhhhh") ∧
    (processTextMapper ([Node.obj [("name", Val.vstr "John")]])
        (some [TMItem.cond (["name"]) ("{5}") ("missing")])
        (some (Val.vaddr 0)) = "<unknown>") ∧
    (processTextMapper ([Node.obj [("name", Val.vstr "")]])
        (some [TMItem.cond (["name"]) ("{0}") ("missing")])
        (some (Val.vaddr 0)) = "<unknown>") := by
  refine ⟨processTextMapper_fallback, processTextMapper_allmatch,
    by decide, by decide, by decide, by decide⟩

/-- C9 (witness): the amended theorem's conditional parts applied to the
example record and the empty record. -/
theorem processTextMapper_amended_witness :
    (processTextMapper ([Node.obj []])
        (some [TMItem.cond (["name"]) ("{0}") ("missing")]) (some (Val.vaddr 0)) = "missing") ∧
    (processTextMapper ([Node.obj [("name", Val.vstr "John")]])
        (some [TMItem.cond (["name"]) ("{0}") ("missing")]) (some (Val.vaddr 0)) =
      substPlaceholders ([Node.obj [("name", Val.vstr "John")]])
        (((["name"] : List String).map
            (fun p => recursiveSelectStr ([Node.obj [("name", Val.vstr "John")]]) p
              (some (Val.vaddr 0)))).filterMap id) ("{0}")) :=
  ⟨processTextMapper_amended.1 ([Node.obj []]) (["name"]) ("{0}") ("missing")
      (some (Val.vaddr 0)) (by decide),
   processTextMapper_amended.2.1 ([Node.obj [("name", Val.vstr "John")]]) (["name"]) ("{0}")
      ("missing") (some (Val.vaddr 0)) (by decide)⟩

theorem batcherSet_quiet {T : Type} (tp t0 now : Int) (x : T) (cbtok : Nat) (s : BatcherState T)
    (htp : 0 < tp) (hlu : s.lastUpdated = some t0) (hnow : now - t0 < tp) :
    batcherSet tp now (some x) (some cbtok) s =
      ({ s with batched := s.batched ++ [x], pendingCallbacks := s.pendingCallbacks ++ [cbtok],
                timeoutSet := true, timerPending := true }, none) := by
  unfold batcherSet
  simp only [Option.toList_some]
  have hcond : staleFlushCond tp now
      { s with batched := s.batched ++ [x],
               pendingCallbacks := s.pendingCallbacks ++ [cbtok] } = false := by
    unfold staleFlushCond
    simp only [hlu]
    have h1 : decide (now - t0 ≥ tp) = false := by
      simp only [decide_eq_false_iff_not]
      omega
    have h2 : decide (now - t0 > tp * 10) = false := by
      simp only [decide_eq_false_iff_not]
      omega
    simp [h1, h2]
  rw [if_neg (by simp [hcond])]

theorem batcherRun_quiet {T : Type} (tp t0 : Int) :
    ∀ (calls : List (Int × T × Nat)) (s : BatcherState T),
      0 < tp → s.lastUpdated = some t0 → (∀ c ∈ calls, c.1 - t0 < tp) →
      (batcherRun tp calls s).2 = [] ∧
      (batcherRun tp calls s).1.batched = s.batched ++ calls.map (fun c => c.2.1) ∧
      (batcherRun tp calls s).1.pendingCallbacks = s.pendingCallbacks ++ calls.map (fun c => c.2.2) ∧
      (batcherRun tp calls s).1.lastUpdated = some t0 := by
  intro calls
  induction calls with
  | nil => intro s htp hlu hin; simp [batcherRun, hlu]
  | cons c rest ih =>
    intro s htp hlu hin
    obtain ⟨now, x, cbtok⟩ := c
    have hnow : now - t0 < tp := by
      have := hin (now, x, cbtok) (List.mem_cons_self _ _)
      simpa using this
    have hset := batcherSet_quiet tp t0 now x cbtok s htp hlu hnow
    have hrest := ih ({ s with batched := s.batched ++ [x],
                               pendingCallbacks := s.pendingCallbacks ++ [cbtok],
                               timeoutSet := true, timerPending := true })
      htp (by simp [hlu]) (fun cc hcc => hin cc (List.mem_cons_of_mem _ hcc))
    simp only [batcherRun, hset]
    refine ⟨by simpa using hrest.1, ?_, ?_, by simpa using hrest.2.2.2⟩
    · have hb := hrest.2.1
      simp only [hb]
      simp
    · have hp := hrest.2.2.1
      simp only [hp]
      simp

/-- C1 (counterexample): on a fresh batcher (lastUpdated = -Infinity) the
very first set call flushes immediately although no flush timer is
pending and none was ever started — the second disjunct of the stale
test fires — so 50 concurrent set calls on a fresh batcher produce two
bulk invocations, the first with only the first item and, after the
debounce timer fires, a second with the remaining 49; not one invocation
with all 50. -/
theorem createBatcher_first_set_flushes_without_timer :
    ((initBatcher Nat).timerPending = false) ∧
    ((initBatcher Nat).timeoutSet = false) ∧
    ((batcherSet 307 0 (some 1) (some 0) (initBatcher Nat)).2 = some ([1], [0])) ∧
    ((batcherRun 307 ((List.range 50).map (fun i => ((0 : Int), i + 1, i))) (initBatcher Nat)).2 =
      [([1], [0])]) ∧
    ((batcherTimerFire 307
        (batcherRun 307 ((List.range 50).map (fun i => ((0 : Int), i + 1, i))) (initBatcher Nat)).1).2 =
      ((List.range 49).map (fun i => i + 2), (List.range 49).map (fun i => i + 1))) := by
  refine ⟨rfl, rfl, by decide, by decide, by decide⟩

/-- C1 (amended): the immediate-flush test is (timeout variable set and
at least period + 7 ms since the last flush) or more than 10 times
(period + 7) ms since the last flush — with lastUpdated initialised to
-Infinity, so the first-ever set flushes immediately by itself. On a
batcher whose last flush just happened (lastUpdated = t0, queues empty),
any number of set calls arriving within one debounce window (each before
t0 + period + 7) produce no immediate flush — each (re)starts the
debounce timer — and the single timer fire that follows makes exactly
one bulk invocation whose snapshot holds all enqueued items in insertion
order, with all completion callbacks. -/
theorem createBatcher_coalesces_amended {T : Type} (tp t0 tFire : Int)
    (calls : List (Int × T × Nat)) (s0 : BatcherState T)
    (htp : 0 < tp) (hb : s0.batched = []) (hcb : s0.pendingCallbacks = [])
    (hlu : s0.lastUpdated = some t0) (hin : ∀ c ∈ calls, c.1 - t0 < tp) :
    (batcherRun tp calls s0).2 = [] ∧
    (batcherTimerFire tFire (batcherRun tp calls s0).1).2 =
      (calls.map (fun c => c.2.1), calls.map (fun c => c.2.2)) := by
  have hq := batcherRun_quiet tp t0 calls s0 htp hlu hin
  refine ⟨hq.1, ?_⟩
  unfold batcherTimerFire
  simp only [hq.2.1, hq.2.2.1, hb, hcb, List.nil_append]

/-- C1 (witness): three set calls inside one window after a flush at
time 0 coalesce into the single timer-fire snapshot. -/
theorem createBatcher_coalesces_witness :
    (batcherRun 307 [((1 : Int), (10 : Nat), 0), (2, 20, 1), (3, 30, 2)]
        { timeoutSet := false, timerPending := false, batched := [],
          pendingCallbacks := [], lastUpdated := some 0 }).2 = [] ∧
    (batcherTimerFire 310
        (batcherRun 307 [((1 : Int), (10 : Nat), 0), (2, 20, 1), (3, 30, 2)]
          { timeoutSet := false, timerPending := false, batched := [],
            pendingCallbacks := [], lastUpdated := some 0 }).1).2 =
      ([10, 20, 30], [0, 1, 2]) :=
  createBatcher_coalesces_amended 307 0 310 [((1 : Int), (10 : Nat), 0), (2, 20, 1), (3, 30, 2)]
    { timeoutSet := false, timerPending := false, batched := [],
      pendingCallbacks := [], lastUpdated := some 0 }
    (by decide) rfl rfl rfl (by decide)

theorem jsEq_symm (a b : Val) : jsEq a b = jsEq b a := by
  cases a <;> cases b <;> simp [jsEq, beq_iff_eq] <;> exact eq_comm

theorem jsEqOpt_symm (a b : Option Val) : jsEqOpt a b = jsEqOpt b a := by
  cases a with
  | none =>
    cases b with
    | none => rfl
    | some vb => cases vb <;> rfl
  | some va =>
    cases b with
    | none => cases va <;> rfl
    | some vb => simpa [jsEqOpt] using jsEq_symm va vb

theorem sameBatchKey_symm (h : Heap) (km : List String) (a b : Val) :
    sameBatchKey h km a b = sameBatchKey h km b a := by
  unfold sameBatchKey
  exact jsEqOpt_symm _ _

theorem mergeRecords_pairwise (h : Heap) (km : List String) :
    ∀ (res cache : List Val),
      List.Pairwise (fun a b => sameBatchKey h km a b = false) cache →
      List.Pairwise (fun a b => sameBatchKey h km a b = false) (mergeRecords h km cache res) := by
  intro res
  induction res with
  | nil => intro cache hc; simpa [mergeRecords] using hc
  | cons item rest ih =>
    intro cache hc
    unfold mergeRecords
    by_cases hfound : cache.any (fun ci => sameBatchKey h km item ci) = true
    · rw [if_pos hfound]
      exact ih cache hc
    · rw [if_neg hfound]
      apply ih
      rw [List.pairwise_append]
      refine ⟨hc, by simp, ?_⟩
      intro a ha b hb
      have hbi : b = item := by simpa using hb
      rw [hbi]
      have hfalse : cache.any (fun ci => sameBatchKey h km item ci) = false :=
        Bool.eq_false_iff.mpr (by simpa using hfound)
      have hall := List.any_eq_false.mp hfalse
      have hai := hall a ha
      rw [sameBatchKey_symm]
      exact Bool.eq_false_iff.mpr hai

theorem mergeRecords_noop (h : Heap) (km : List String) (cache : List Val) (item : Val)
    (hfound : cache.any (fun ci => sameBatchKey h km item ci) = true) :
    mergeRecords h km cache [item] = cache := by
  unfold mergeRecords
  rw [if_pos hfound]
  unfold mergeRecords
  rfl

theorem mergeRecords_pair (h : Heap) (km : List String) (r1 r2 : Val)
    (hkey : sameBatchKey h km r1 r2 = true) :
    mergeRecords h km [] [r1, r2] = [r1] := by
  unfold mergeRecords
  rw [if_neg (by simp)]
  have h21 : sameBatchKey h km r2 r1 = true := by
    rw [sameBatchKey_symm]
    exact hkey
  unfold mergeRecords
  rw [if_pos (by simp [h21])]
  rfl

/-- C8: the flush merge keeps the records list free of two entries with
loosely equal unique-match keys: a pairwise-distinct cache stays
pairwise distinct under any merge, merging a record whose key already
exists is a no-op, and flushing two records sharing a key caches exactly
one record. -/
theorem mergeRecords_unique_key_invariant :
    (∀ (h : Heap) (km : List String) (res cache : List Val),
        List.Pairwise (fun a b => sameBatchKey h km a b = false) cache →
        List.Pairwise (fun a b => sameBatchKey h km a b = false) (mergeRecords h km cache res)) ∧
    (∀ (h : Heap) (km : List String) (cache : List Val) (item : Val),
        cache.any (fun ci => sameBatchKey h km item ci) = true →
        mergeRecords h km cache [item] = cache) ∧
    (∀ (h : Heap) (km : List String) (r1 r2 : Val),
        sameBatchKey h km r1 r2 = true →
        mergeRecords h km [] [r1, r2] = [r1]) :=
  ⟨mergeRecords_pairwise, mergeRecords_noop, mergeRecords_pair⟩

/-- C8 (witness): two records with id 1 merge to a single cached record,
and merging them into a cache of a distinct-id record keeps keys
pairwise distinct. -/
theorem mergeRecords_unique_key_witness :
    List.Pairwise
      (fun a b =>
        sameBatchKey ([Node.obj [("id", Val.vnum 1), ("x", Val.vnum 10)],
          Node.obj [("id", Val.vnum 1), ("x", Val.vnum 20)],
          Node.obj [("id", Val.vnum 2)]]) (["id"]) a b = false)
      (mergeRecords ([Node.obj [("id", Val.vnum 1), ("x", Val.vnum 10)],
          Node.obj [("id", Val.vnum 1), ("x", Val.vnum 20)],
          Node.obj [("id", Val.vnum 2)]]) (["id"])
        ([Val.vaddr 2]) ([Val.vaddr 0, Val.vaddr 1])) ∧
    mergeRecords ([Node.obj [("id", Val.vnum 1), ("x", Val.vnum 10)],
        Node.obj [("id", Val.vnum 1), ("x", Val.vnum 20)],
        Node.obj [("id", Val.vnum 2)]]) (["id"]) ([]) ([Val.vaddr 0, Val.vaddr 1]) =
      [Val.vaddr 0] :=
  ⟨mergeRecords_unique_key_invariant.1 _ (["id"]) ([Val.vaddr 0, Val.vaddr 1]) ([Val.vaddr 2])
      (by decide),
   mergeRecords_unique_key_invariant.2.2 _ (["id"]) (Val.vaddr 0) (Val.vaddr 1) (by decide)⟩

theorem processedValues_preserved (h : Heap) (fm km : List String)
    (remote : List Int → Option Val) (entry : BatchCacheEntry) (values : Option (List Int)) :
    (processDeferredBatchedFlush h fm km remote entry values).processedValues =
      entry.processedValues := by
  unfold processDeferredBatchedFlush
  cases values with
  | none => rfl
  | some vs =>
    by_cases hf : (filterNewValues entry.processedValues vs).isEmpty
    · simp [hf]
    · simp only [hf, Bool.false_eq_true, if_false]
      cases hsel : recursiveSelect h fm (remote (filterNewValues entry.processedValues vs)) with
      | none => rfl
      | some v =>
        cases v with
        | vnull => rfl
        | vbool b => rfl
        | vnum n => rfl
        | vstr s => rfl
        | vclosure => rfl
        | vaddr a =>
          cases hn : nodeAt h a with
          | none => simp only [hn]
          | some n =>
            cases n with
            | obj fs => simp only [hn]
            | arr es ex => simp only [hn]

/-- C2: the claim (and the spec) say every value covered by a flush is
afterwards in resolvedKeys (processedValues); the code never writes to
processedValues at all — no flush changes it — so after flushing value 5
against a remote response with no matching record the entry is unchanged
and the next request for 5 is enqueued again instead of being answered
as a confirmed miss. (The only-grows half is vacuously true; the
marking half is the code bug.) -/
theorem processedValues_never_marked :
    (∀ (h : Heap) (fm km : List String) (remote : List Int → Option Val)
        (entry : BatchCacheEntry) (values : Option (List Int)),
        (processDeferredBatchedFlush h fm km remote entry values).processedValues =
          entry.processedValues) ∧
    (processDeferredBatchedFlush ([Node.arr [] []]) ([]) ([]) (fun _ => some (Val.vaddr 0))
        { cache := [], processedValues := [] } (some [5]) =
      { cache := [], processedValues := [] }) ∧
    (deferredRequestAction ([Node.arr [] []]) ([])
        (processDeferredBatchedFlush ([Node.arr [] []]) ([]) ([]) (fun _ => some (Val.vaddr 0))
          { cache := [], processedValues := [] } (some [5])) 5 = DeferredAction.enqueue) :=
  ⟨processedValues_preserved, by decide, by decide⟩

/-- C6 (counterexample): with the extras memo not yet covering the epc,
a failing flush makes the promise returned by fetchExtraInfo reject (the
completion callback calls reject(error) first), and a lock-acquisition
timeout leaves it unsettled forever — not the claimed
resolve-to-null. -/
theorem fetchExtraInfo_rejects_on_flush_error :
    (fetchExtraInfo (fun _ => none) ("E1") ExtrasFlushOutcome.flushError = FetchResult.rejects) ∧
    (fetchExtraInfo (fun _ => none) ("E1") ExtrasFlushOutcome.lockTimeout = FetchResult.hangs) :=
  ⟨rfl, rfl⟩

/-- C6 (amended): fetchExtraInfo resolves to the extras value or null
whenever the memo already covers the identifier or the awaited flush
completes (a key absent from the response resolves to null); it rejects
exactly when the memo misses and the flush reports an error, and it
never settles when the memo misses and lock acquisition times out. -/
theorem fetchExtraInfo_outcomes_amended :
    ∀ (memo0 : String → Option ExtraEntry) (epc : String) (outcome : ExtrasFlushOutcome),
      (∀ e, memo0 epc = some e →
        fetchExtraInfo memo0 epc outcome =
          FetchResult.resolves (match e with | .found v => some v | .notFound => none)) ∧
      (∀ m1, memo0 epc = none → outcome = .flushed m1 →
        fetchExtraInfo memo0 epc outcome =
          FetchResult.resolves (match m1 epc with | some (.found v) => some v | _ => none)) ∧
      (fetchExtraInfo memo0 epc outcome = FetchResult.rejects ↔
        (memo0 epc = none ∧ outcome = .flushError)) ∧
      (fetchExtraInfo memo0 epc outcome = FetchResult.hangs ↔
        (memo0 epc = none ∧ outcome = .lockTimeout)) := by
  intro memo0 epc outcome
  cases hm : memo0 epc with
  | some e =>
    cases e with
    | found v =>
      cases outcome <;> simp [fetchExtraInfo, hm]
    | notFound =>
      cases outcome <;> simp [fetchExtraInfo, hm]
  | none =>
    cases outcome with
    | flushError => simp [fetchExtraInfo, hm]
    | lockTimeout => simp [fetchExtraInfo, hm]
    | flushed m1 =>
      cases hm1 : m1 epc with
      | none => simp [fetchExtraInfo, hm, hm1]
      | some e1 => cases e1 <;> simp [fetchExtraInfo, hm, hm1]

/-- C6 (witness): a memo hit resolves with the stored value even under a
lock timeout, and an awaited flush that leaves the key absent resolves
to null. -/
theorem fetchExtraInfo_outcomes_witness :
    (fetchExtraInfo (fun _ => some (ExtraEntry.found (Val.vnum 7))) ("E")
        ExtrasFlushOutcome.lockTimeout = FetchResult.resolves (some (Val.vnum 7))) ∧
    (fetchExtraInfo (fun _ => none) ("E") (ExtrasFlushOutcome.flushed (fun _ => none)) =
      FetchResult.resolves none) :=
  ⟨(fetchExtraInfo_outcomes_amended (fun _ => some (ExtraEntry.found (Val.vnum 7))) ("E")
      ExtrasFlushOutcome.lockTimeout).1 (ExtraEntry.found (Val.vnum 7)) rfl,
   (fetchExtraInfo_outcomes_amended (fun _ => none) ("E")
      (ExtrasFlushOutcome.flushed (fun _ => none))).2.1 (fun _ => none) rfl rfl⟩

theorem virtualFetch_never_pop (h : Heap) (defs : List TagContentType) (tagEpc : String) :
    ∀ (n k ac : Nat), 5 - ac ≤ n →
      virtualFetchGo h defs tagEpc (fun _ => none) k ac =
        .error ("failed to fetch tag info " ++ tagEpc) := by
  intro n
  induction n with
  | zero =>
    intro k ac hle
    rw [virtualFetchGo]
    rw [dif_pos (by omega : ac ≥ 5)]
  | succ n' ih =>
    intro k ac hle
    by_cases hac : ac ≥ 5
    · rw [virtualFetchGo, dif_pos hac]
    · rw [virtualFetchGo, dif_neg hac]
      exact ih (k + 2) (ac + 1) (by omega)

/-- C7: the virtual fetch capability fails deterministically with the
fixed error at every attemptCount at or above the ceiling of 5; with a
batcher that never populates the memo it terminates in that error from
any starting attempt count (at most the ceiling number of enqueue
attempts, by the bounded recursion); and below the ceiling an
unpopulated memo before and after the awaited flush retries with
attemptCount + 1. -/
theorem virtualFetch_retry_ceiling :
    (∀ (h : Heap) (defs : List TagContentType) (tagEpc : String)
        (reads : Nat → Option VirtEntry) (k ac : Nat), ac ≥ 5 →
        virtualFetchGo h defs tagEpc reads k ac =
          .error ("failed to fetch tag info " ++ tagEpc)) ∧
    (∀ (h : Heap) (defs : List TagContentType) (tagEpc : String) (k ac : Nat),
        virtualFetchGo h defs tagEpc (fun _ => none) k ac =
          .error ("failed to fetch tag info " ++ tagEpc)) ∧
    (∀ (h : Heap) (defs : List TagContentType) (tagEpc : String)
        (reads : Nat → Option VirtEntry) (k ac : Nat), ¬ ac ≥ 5 →
        reads k = none → reads (k + 1) = none →
        virtualFetchGo h defs tagEpc reads k ac =
          virtualFetchGo h defs tagEpc reads (k + 2) (ac + 1)) := by
  refine ⟨?_, ?_, ?_⟩
  · intro h defs tagEpc reads k ac hac
    rw [virtualFetchGo, dif_pos hac]
  · intro h defs tagEpc k ac
    exact virtualFetch_never_pop h defs tagEpc 5 k ac (by omega)
  · intro h defs tagEpc reads k ac hac h1 h2
    rw [virtualFetchGo, dif_neg hac, h1, h2]

/-- C7 (witness): at the ceiling the fetch fails even with a populated
memo, and a never-populated memo fails from attempt 0. -/
theorem virtualFetch_retry_ceiling_witness :
    (virtualFetchGo ([]) ([]) ("E") (fun _ => some (VirtEntry.vfound 1 2)) 0 5 =
      .error ("failed to fetch tag info " ++ "E")) ∧
    (virtualFetchGo ([]) ([]) ("E") (fun _ => none) 0 0 =
      .error ("failed to fetch tag info " ++ "E")) :=
  ⟨virtualFetch_retry_ceiling.1 ([]) ([]) ("E") (fun _ => some (VirtEntry.vfound 1 2)) 0 5
      (by omega),
   virtualFetch_retry_ceiling.2.1 ([]) ([]) ("E") 0 0⟩

/-- C10: when the definition found for the decoded content-type id is
the legacy variant (matched via its content_type_id), the variant
dispatch has no legacy branch and returns null, so findTagInfo never
yields a result record for that definition: it falls through to the
virtual-redirection path (which itself yields null or a maybeVirtual
capability). -/
theorem legacy_dispatch_returns_null (h : Heap) (defs : List TagContentType) (apiClient : Bool)
    (tagEpc : String) (id value : Int) (nm dsp : String) (cid : Int)
    (hfind : findContentType defs id = some (TagContentType.legacy nm dsp cid))
    (hepc : tagEpc ≠ "") (hdec : getTagNumbers tagEpc = some (id, value)) :
    getTagInfoFromValuesWithoutExtraFetcher h defs apiClient tagEpc id value = (h, none) ∧
    findTagInfoCore h defs apiClient tagEpc = FindOutcome.virtualPath := by
  have hdisp : getTagInfoFromValuesWithoutExtraFetcher h defs apiClient tagEpc id value = (h, none) := by
    unfold getTagInfoFromValuesWithoutExtraFetcher
    rw [hfind]
  refine ⟨hdisp, ?_⟩
  unfold findTagInfoCore
  have hne : (tagEpc == "") = false := beq_eq_false_iff_ne.mpr hepc
  rw [if_neg (by simp [hne])]
  rw [hdec]
  simp only [hfind, hdisp]

/-- C10 (witness): a definitions list holding only a legacy definition
with content_type_id 1 and the EPC decoding to (1, 2). -/
theorem legacy_dispatch_returns_null_witness :
    getTagInfoFromValuesWithoutExtraFetcher ([]) ([TagContentType.legacy ("x") ("X") 1]) true
        ("0000000100000002") 1 2 = (([] : Heap), none) ∧
    findTagInfoCore ([]) ([TagContentType.legacy ("x") ("X") 1]) true ("0000000100000002") =
      FindOutcome.virtualPath :=
  legacy_dispatch_returns_null ([]) ([TagContentType.legacy ("x") ("X") 1]) true
    ("0000000100000002") 1 2 ("x") ("X") 1 (by decide) (by decide) (by decide)

set_option maxHeartbeats 1000000

section FoldLemmas

variable {σ : Type}
variable (f : Option (Except Unit (Heap × Option σ)) → Val → Option (Except Unit (Heap × Option σ)))

theorem foldStep_none (hf_none : ∀ e, f none e = none) :
    ∀ es : List Val, es.foldl f none = none := by
  intro es
  induction es with
  | nil => rfl
  | cons e es ih => rw [List.foldl_cons, hf_none]; exact ih

theorem foldStep_err (hf_err : ∀ err e, f (some (.error err)) e = some (.error err)) :
    ∀ (es : List Val) (err : Unit), es.foldl f (some (.error err)) = some (.error err) := by
  intro es
  induction es with
  | nil => intro err; rfl
  | cons e es ih => intro err; rw [List.foldl_cons, hf_err]; exact ih err

theorem foldStep_stay (hf_succ : ∀ h1 dr e, f (some (.ok (h1, some dr))) e = some (.ok (h1, some dr))) :
    ∀ (es : List Val) (h1 : Heap) (dr : σ),
      es.foldl f (some (.ok (h1, some dr))) = some (.ok (h1, some dr)) := by
  intro es
  induction es with
  | nil => intro h1 dr; rfl
  | cons e es ih => intro h1 dr; rw [List.foldl_cons, hf_succ]; exact ih h1 dr

theorem foldStep_fail
    (hf_none : ∀ e, f none e = none)
    (hf_err : ∀ err e, f (some (.error err)) e = some (.error err))
    (hf_succ : ∀ h1 dr e, f (some (.ok (h1, some dr))) e = some (.ok (h1, some dr)))
    (hf_cont : ∀ h1 e h2, f (some (.ok (h1, none))) e = some (.ok (h2, (none : Option σ))) → h2 = h1) :
    ∀ (es : List Val) (hacc hres : Heap),
      es.foldl f (some (.ok (hacc, none))) = some (.ok (hres, (none : Option σ))) → hres = hacc := by
  intro es
  induction es with
  | nil =>
    intro hacc hres hEq
    simp only [List.foldl_nil, Option.some.injEq, Except.ok.injEq, Prod.mk.injEq] at hEq
    exact hEq.1.symm
  | cons e es ih =>
    intro hacc hres hEq
    rw [List.foldl_cons] at hEq
    cases hstep : f (some (.ok (hacc, none))) e with
    | none =>
      rw [hstep, foldStep_none f hf_none] at hEq
      exact absurd hEq (by simp)
    | some exc =>
      cases exc with
      | error err =>
        rw [hstep, foldStep_err f hf_err] at hEq
        exact absurd hEq (by simp)
      | ok pr =>
        obtain ⟨h1, res⟩ := pr
        cases res with
        | some dr =>
          rw [hstep, foldStep_stay f hf_succ] at hEq
          exact absurd hEq (by simp)
        | none =>
          have h1e : h1 = hacc := hf_cont hacc e h1 hstep
          rw [hstep, h1e] at hEq
          exact ih hacc hres hEq

theorem foldStep_success
    (hf_none : ∀ e, f none e = none)
    (hf_err : ∀ err e, f (some (.error err)) e = some (.error err))
    (hf_succ : ∀ h1 dr e, f (some (.ok (h1, some dr))) e = some (.ok (h1, some dr)))
    (hf_cont : ∀ h1 e h2, f (some (.ok (h1, none))) e = some (.ok (h2, (none : Option σ))) → h2 = h1) :
    ∀ (es : List Val) (hacc hres : Heap) (dr : σ),
      es.foldl f (some (.ok (hacc, none))) = some (.ok (hres, some dr)) →
      ∃ e ∈ es, f (some (.ok (hacc, none))) e = some (.ok (hres, some dr)) := by
  intro es
  induction es with
  | nil =>
    intro hacc hres dr hEq
    simp only [List.foldl_nil, Option.some.injEq, Except.ok.injEq, Prod.mk.injEq] at hEq
    exact absurd hEq.2 (by simp)
  | cons e es ih =>
    intro hacc hres dr hEq
    rw [List.foldl_cons] at hEq
    cases hstep : f (some (.ok (hacc, none))) e with
    | none =>
      rw [hstep, foldStep_none f hf_none] at hEq
      exact absurd hEq (by simp)
    | some exc =>
      cases exc with
      | error err =>
        rw [hstep, foldStep_err f hf_err] at hEq
        exact absurd hEq (by simp)
      | ok pr =>
        obtain ⟨h1, res⟩ := pr
        cases res with
        | some dr1 =>
          rw [hstep, foldStep_stay f hf_succ] at hEq
          simp only [Option.some.injEq, Except.ok.injEq, Prod.mk.injEq] at hEq
          refine ⟨e, List.mem_cons_self _ _, ?_⟩
          rw [hstep, hEq.1, hEq.2]
        | none =>
          have h1e : h1 = hacc := hf_cont hacc e h1 hstep
          rw [hstep, h1e] at hEq
          rcases ih hacc hres dr hEq with ⟨e2, he2, hfe2⟩
          exact ⟨e2, List.mem_cons_of_mem _ he2, hfe2⟩

end FoldLemmas

theorem look_fail :
    ∀ (fuel : Nat) (h : Heap) (map : List String) (v : Val) (target parent : Option Val)
      (root : Nat) (seen : List (Option Val)) (h2 : Heap) (d : Nat),
      look fuel h map v target parent root seen = some (.ok (h2, d, none)) → h2 = h := by
  intro fuel
  induction fuel with
  | zero =>
    intro h map v target parent root seen h2 d hEq
    simp [look] at hEq
  | succ n ih =>
    intro h map v target parent root seen h2 d hEq
    simp only [look] at hEq
    split at hEq
    · simp only [Option.some.injEq, Except.ok.injEq, Prod.mk.injEq] at hEq
      exact hEq.1.symm
    · rename_i hns
      split at hEq
      · -- target = none
        simp only [Option.some.injEq, Except.ok.injEq, Prod.mk.injEq] at hEq
        exact hEq.1.symm
      · -- target = some vnull
        simp only [Option.some.injEq, Except.ok.injEq, Prod.mk.injEq] at hEq
        exact hEq.1.symm
      · -- target = some (vaddr a)
        rename_i a
        split at hEq
        · -- nodeAt = some (.arr es ex)
          rename_i es ex hn
          split at hEq
          · -- head? mismatch
            simp only [Option.some.injEq, Except.ok.injEq, Prod.mk.injEq] at hEq
            exact hEq.1.symm
          · -- fold branch: split on the folded match
            split at hEq
            · exact absurd hEq (by simp)
            · exact absurd hEq (by simp)
            · -- fold success: result has some, contradiction with none
              split at hEq
              · exact absurd hEq (by simp)
              · simp only [Option.some.injEq, Except.ok.injEq, Prod.mk.injEq] at hEq
                exact absurd hEq.2.2 (by simp)
            · -- fold failure
              rename_i h1 hfold
              simp only [Option.some.injEq, Except.ok.injEq, Prod.mk.injEq] at hEq
              have h1h : h1 = h := by
                refine foldStep_fail _ (fun e => rfl) (fun err e => rfl) (fun ha dr e => rfl)
                  ?_ es h h1 hfold
                intro ha e hb hstep
                simp only [lookStep] at hstep
                cases hsub : look n ha (map.drop 1) v (some e) (some (Val.vaddr a)) (root + 1)
                    (seen ++ [some (Val.vaddr a)]) with
                | none => rw [hsub] at hstep; simp at hstep
                | some exc =>
                  rw [hsub] at hstep
                  cases exc with
                  | error err => simp at hstep
                  | ok out =>
                    obtain ⟨hx, dx, resx⟩ := out
                    cases resx with
                    | some rx => simp at hstep
                    | none =>
                      simp only [Option.some.injEq, Except.ok.injEq, Prod.mk.injEq] at hstep
                      rw [← hstep.1]
                      exact ih ha (map.drop 1) v (some e) (some (Val.vaddr a)) (root + 1)
                        (seen ++ [some (Val.vaddr a)]) hx dx hsub
              rw [← hEq.1, h1h]
        · -- nodeAt = some (.obj fs)
          rename_i fs hn
          split at hEq
          · exact absurd hEq (by simp)
          · exact absurd hEq (by simp)
          · rename_i h1 d1 res1 hsub
            split at hEq
            · exact absurd hEq (by simp)
            · rename_i h3 hsp
              simp only [Option.some.injEq, Except.ok.injEq, Prod.mk.injEq] at hEq
              obtain ⟨hh, hd, hres⟩ := hEq
              rw [hres] at hsub hsp
              have h1h : h1 = h := ih h (map.drop 1) v _ (some (Val.vaddr a)) (root + 1)
                (seen ++ [some (Val.vaddr a)]) h1 d1 hsub
              have h3e : h3 = h1 := by
                unfold setParentStep at hsp
                simpa using hsp.symm
              rw [← hh, h3e, h1h]
        · -- nodeAt = none
          split at hEq
          · exact absurd hEq (by simp)
          · exact absurd hEq (by simp)
          · rename_i h1 d1 res1 hsub
            split at hEq
            · exact absurd hEq (by simp)
            · rename_i h3 hsp
              simp only [Option.some.injEq, Except.ok.injEq, Prod.mk.injEq] at hEq
              obtain ⟨hh, hd, hres⟩ := hEq
              rw [hres] at hsub hsp
              have h1h : h1 = h := ih h (map.drop 1) v _ (some (Val.vaddr a)) (root + 1)
                (seen ++ [some (Val.vaddr a)]) h1 d1 hsub
              have h3e : h3 = h1 := by
                unfold setParentStep at hsp
                simpa using hsp.symm
              rw [← hh, h3e, h1h]
      · -- catch-all prim
        rename_i t hne1 hne2 hne3
        split at hEq
        · split at hEq
          · split at hEq
            · exact absurd hEq (by simp)
            · exact absurd hEq (by simp)
          · simp only [Option.some.injEq, Except.ok.injEq, Prod.mk.injEq] at hEq
            exact hEq.1.symm
        · simp only [Option.some.injEq, Except.ok.injEq, Prod.mk.injEq] at hEq
          exact hEq.1.symm

theorem mem_seenAddrSet (seen : List (Option Val)) (b : Nat) :
    b ∈ seenAddrSet seen ↔ some (Val.vaddr b) ∈ seen := by
  induction seen with
  | nil => simp [seenAddrSet]
  | cons t rest ih =>
    unfold seenAddrSet at ih ⊢
    cases t with
    | none => simp only [List.foldr_cons]; simp [ih]
    | some tv =>
      cases tv <;> simp only [List.foldr_cons] <;> simp [ih, Finset.mem_insert]

theorem seenAddrSet_append (seen : List (Option Val)) (t : Option Val) (b : Nat) :
    b ∈ seenAddrSet (seen ++ [t]) ↔ b ∈ seenAddrSet seen ∨ t = some (Val.vaddr b) := by
  rw [mem_seenAddrSet, mem_seenAddrSet]
  simp only [List.mem_append, List.mem_singleton]
  constructor
  · rintro (hh | hh)
    · exact Or.inl hh
    · exact Or.inr hh.symm
  · rintro (hh | hh)
    · exact Or.inl hh
    · exact Or.inr hh.symm

theorem seenIncludes_false_not_mem (seen : List (Option Val)) (t : Option Val)
    (hf : ¬ seenIncludes seen t = true) : t ∉ seen := by
  intro hmem
  apply hf
  unfold seenIncludes
  rw [List.any_eq_true]
  exact ⟨t, hmem, by simp⟩

theorem lookMeasure_le (h : Heap) (seen : List (Option Val)) : lookMeasure h seen ≤ h.length := by
  unfold lookMeasure
  calc ((Finset.range h.length).filter (fun a => a ∉ seenAddrSet seen)).card
      ≤ (Finset.range h.length).card := Finset.card_filter_le _ _
    _ = h.length := Finset.card_range _

theorem lookMeasure_push_addr (h : Heap) (seen : List (Option Val)) (a : Nat)
    (ha : a < h.length) (hns : ¬ seenIncludes seen (some (Val.vaddr a)) = true) :
    lookMeasure h (seen ++ [some (Val.vaddr a)]) + 1 = lookMeasure h seen := by
  unfold lookMeasure
  have hset : (Finset.range h.length).filter (fun b => b ∉ seenAddrSet (seen ++ [some (Val.vaddr a)]))
      = ((Finset.range h.length).filter (fun b => b ∉ seenAddrSet seen)).erase a := by
    ext b
    simp only [Finset.mem_filter, Finset.mem_erase, Finset.mem_range]
    rw [seenAddrSet_append]
    constructor
    · rintro ⟨hb, hnb⟩
      push_neg at hnb
      refine ⟨?_, hb, hnb.1⟩
      intro hba
      exact hnb.2 (by rw [hba])
    · rintro ⟨hba, hb, hnb⟩
      refine ⟨hb, ?_⟩
      push_neg
      refine ⟨hnb, ?_⟩
      intro hcontra
      have hab : a = b := by
        injection hcontra with h1
        injection h1
      exact hba hab.symm
  rw [hset]
  have hmem : a ∈ (Finset.range h.length).filter (fun b => b ∉ seenAddrSet seen) := by
    rw [Finset.mem_filter, Finset.mem_range]
    exact ⟨ha, fun hmem => seenIncludes_false_not_mem seen _ hns ((mem_seenAddrSet seen a).mp hmem)⟩
  rw [Finset.card_erase_of_mem hmem]
  have : 0 < ((Finset.range h.length).filter (fun b => b ∉ seenAddrSet seen)).card :=
    Finset.card_pos.mpr ⟨a, hmem⟩
  omega

theorem lookMeasure_push_other (h : Heap) (seen : List (Option Val)) (t : Option Val)
    (hne : ∀ b : Nat, t ≠ some (Val.vaddr b)) :
    lookMeasure h (seen ++ [t]) = lookMeasure h seen := by
  unfold lookMeasure
  congr 1
  apply Finset.filter_congr
  intro b hb
  rw [seenAddrSet_append]
  constructor
  · intro hx hmem
    exact hx (Or.inl hmem)
  · intro hx hmem
    rcases hmem with hm | hm
    · exact hx hm
    · exact absurd hm (hne b)

theorem foldStep_total {σ : Type}
    (f : Option (Except Unit (Heap × Option σ)) → Val → Option (Except Unit (Heap × Option σ)))
    (hf_err : ∀ err e, f (some (.error err)) e = some (.error err))
    (hf_succ : ∀ h1 dr e, f (some (.ok (h1, some dr))) e = some (.ok (h1, some dr)))
    (hf_cont : ∀ h1 e h2, f (some (.ok (h1, none))) e = some (.ok (h2, (none : Option σ))) → h2 = h1)
    (h : Heap)
    (hstep : ∀ e, f (some (.ok (h, none))) e ≠ none) :
    ∀ es : List Val, (es.foldl f (some (.ok (h, (none : Option σ))))).isSome := by
  intro es
  induction es with
  | nil => rfl
  | cons e es ih =>
    rw [List.foldl_cons]
    cases hout : f (some (.ok (h, none))) e with
    | none => exact absurd hout (hstep e)
    | some exc =>
      cases exc with
      | error err => rw [foldStep_err f hf_err]; rfl
      | ok pr =>
        obtain ⟨h1, res⟩ := pr
        cases res with
        | some dr => rw [foldStep_stay f hf_succ]; rfl
        | none =>
          rw [hf_cont h e h1 hout]
          exact ih

theorem foldStep_total_ne {σ : Type}
    (f : Option (Except Unit (Heap × Option σ)) → Val → Option (Except Unit (Heap × Option σ)))
    (hf_err : ∀ err e, f (some (.error err)) e = some (.error err))
    (hf_succ : ∀ h1 dr e, f (some (.ok (h1, some dr))) e = some (.ok (h1, some dr)))
    (hf_cont : ∀ h1 e h2, f (some (.ok (h1, none))) e = some (.ok (h2, (none : Option σ))) → h2 = h1)
    (h : Heap)
    (hstep : ∀ e, f (some (.ok (h, none))) e ≠ none) :
    ∀ es : List Val, es.foldl f (some (.ok (h, (none : Option σ)))) ≠ none := by
  intro es hc
  have hfold := foldStep_total f hf_err hf_succ hf_cont h hstep es
  rw [hc] at hfold
  exact absurd hfold (by simp)

theorem look_none_target (n : Nat) (h : Heap) (map : List String) (v : Val)
    (parent : Option Val) (root : Nat) (seen : List (Option Val)) :
    look (n + 1) h map v none parent root seen = some (.ok (h, root, none)) := by
  simp only [look]
  by_cases hseen : seenIncludes seen none = true
  · rw [if_pos hseen]
  · rw [if_neg hseen]

theorem look_total :
    ∀ (fuel : Nat) (h : Heap) (map : List String) (v : Val) (target parent : Option Val)
      (root : Nat) (seen : List (Option Val)),
      lookMeasure h seen + 3 ≤ fuel → (look fuel h map v target parent root seen).isSome := by
  intro fuel
  induction fuel with
  | zero =>
    intro h map v target parent root seen hle
    omega
  | succ n ih =>
    intro h map v target parent root seen hle
    simp only [look]
    by_cases hseen : seenIncludes seen target = true
    · rw [if_pos hseen]; rfl
    · rw [if_neg hseen]
      split
      · rfl
      · rfl
      · -- target = some (vaddr a)
        rename_i a
        split
        · -- nodeAt = some (.arr es ex)
          rename_i es ex hn
          by_cases hbr : (!(map.head? == some ("[]"))) = true
          · rw [if_pos hbr]; rfl
          · rw [if_neg hbr]
            have hvalid : a < h.length := by
              by_contra hcon
              have hnone : nodeAt h a = none := by
                unfold nodeAt
                rw [List.get?_eq_none]
                omega
              rw [hnone] at hn
              exact absurd hn (by simp)
            have hmeas := lookMeasure_push_addr h seen a hvalid hseen
            have hsub_le : lookMeasure h (seen ++ [some (Val.vaddr a)]) + 3 ≤ n := by omega
            split
            · -- folded = none: impossible by totality of the fold
              rename_i hfoldv
              refine absurd hfoldv
                (foldStep_total_ne _ (fun err e => rfl) (fun h1 dr e => rfl) ?_ h ?_ es)
              · -- hf_cont
                intro h1 e h2 hstep
                simp only [lookStep] at hstep
                cases hsub : look n h1 (List.drop 1 map) v (some e) (some (Val.vaddr a)) (root + 1)
                    (seen ++ [some (Val.vaddr a)]) with
                | none => rw [hsub] at hstep; simp at hstep
                | some exc =>
                  rw [hsub] at hstep
                  cases exc with
                  | error err => simp at hstep
                  | ok out =>
                    obtain ⟨hx, dx, resx⟩ := out
                    cases resx with
                    | some rx => simp at hstep
                    | none =>
                      simp only [Option.some.injEq, Except.ok.injEq, Prod.mk.injEq] at hstep
                      rw [← hstep.1]
                      exact look_fail n h1 (List.drop 1 map) v (some e) (some (Val.vaddr a))
                        (root + 1) (seen ++ [some (Val.vaddr a)]) hx dx hsub
              · -- every step is defined
                intro e hc
                simp only [lookStep] at hc
                cases hsub : look n h (List.drop 1 map) v (some e) (some (Val.vaddr a)) (root + 1)
                    (seen ++ [some (Val.vaddr a)]) with
                | none =>
                  have hs := ih h (List.drop 1 map) v (some e) (some (Val.vaddr a)) (root + 1)
                    (seen ++ [some (Val.vaddr a)]) hsub_le
                  rw [hsub] at hs
                  simp at hs
                | some exc =>
                  rw [hsub] at hc
                  cases exc with
                  | error err => simp at hc
                  | ok out =>
                    obtain ⟨hx, dx, resx⟩ := out
                    cases resx <;> simp at hc
            · rfl
            · -- found a match: set parent, both outcomes are some
              split
              · rfl
              · rfl
            · rfl
        · -- nodeAt = some (.obj fs)
          rename_i fs hn
          have hvalid : a < h.length := by
            by_contra hcon
            have hnone : nodeAt h a = none := by
              unfold nodeAt
              rw [List.get?_eq_none]
              omega
            rw [hnone] at hn
            exact absurd hn (by simp)
          have hmeas := lookMeasure_push_addr h seen a hvalid hseen
          have hsub_le : lookMeasure h (seen ++ [some (Val.vaddr a)]) + 3 ≤ n := by omega
          have hs := ih h (map.drop 1) v
            (assocGet fs (if (map.head? == some ("[value]")) = true then valToKey v
              else (map.head?).getD ("undefined")))
            (some (Val.vaddr a)) (root + 1) (seen ++ [some (Val.vaddr a)]) hsub_le
          cases hsub : look n h (map.drop 1) v
              (assocGet fs (if (map.head? == some ("[value]")) = true then valToKey v
                else (map.head?).getD ("undefined")))
              (some (Val.vaddr a)) (root + 1) (seen ++ [some (Val.vaddr a)]) with
          | none => rw [hsub] at hs; simp at hs
          | some exc =>
            cases exc with
            | error err => rfl
            | ok out =>
              obtain ⟨h1, d1, res1⟩ := out
              cases hsp : setParentStep h1 d1 root (Val.vaddr a) res1 with
              | error err => simp [hsp]
              | ok h3 => simp [hsp]
        · -- nodeAt = none (dangling)
          have hn2 : n = (n - 1) + 1 := by
            have := lookMeasure_le h seen
            omega
          rw [hn2, look_none_target]
          rfl
      · -- catch-all primitive
        split
        all_goals try rfl
        all_goals split
        all_goals try rfl
        all_goals split
        all_goals rfl

/-- Claim C5: recursiveLookup terminates on every input, including
self-referential graphs. Fuel `lookMeasure h seen + 3` always suffices,
so the wrapper's fuel `lookFuel h` makes `look` total; a branch whose
target is already in the visited list is abandoned immediately with a
null result; and on the self-referential heap a = \x7b\x7d; a.self = a;
a.v = 5, searching pattern "v" for value 5 returns a match. -/
theorem recursiveLookup_terminates :
    (∀ (fuel : Nat) (h : Heap) (map : List String) (v : Val) (target parent : Option Val)
        (root : Nat) (seen : List (Option Val)),
        lookMeasure h seen + 3 ≤ fuel → (look fuel h map v target parent root seen).isSome) ∧
    (∀ (h : Heap) (map : List String) (v : Val) (target : Option Val),
        (look (lookFuel h) h map v target none 0 []).isSome) ∧
    (∀ (n : Nat) (h : Heap) (map : List String) (v : Val) (target parent : Option Val)
        (root : Nat) (seen : List (Option Val)),
        seenIncludes seen target = true →
        look (n + 1) h map v target parent root seen = some (.ok (h, root, none))) ∧
    (recursiveLookupStr ([Node.obj [(("self"), Val.vaddr 0), (("v"), Val.vnum 5)]])
        ("v") (Val.vnum 5) (some (Val.vaddr 0))).2.2 = some (Val.vaddr 1) := by
  refine ⟨look_total, ?_, ?_, ?_⟩
  · intro h map v target
    refine look_total (lookFuel h) h map v target none 0 [] ?_
    have := lookMeasure_le h []
    unfold lookFuel
    omega
  · intro n h map v target parent root seen hseen
    simp only [look]
    rw [if_pos hseen]
  · rfl

theorem recursiveLookup_terminates_witness :
    (look 4 ([Node.obj [(("v"), Val.vnum 5)]]) ([("v")]) (Val.vnum 5) (some (Val.vaddr 0))
        none 0 []).isSome = true ∧
    look 1 ([] : Heap) ([]) (Val.vnum 1) (some Val.vnull) none 0 ([some Val.vnull]) =
      some (.ok (([] : Heap), 0, none)) :=
  ⟨recursiveLookup_terminates.1 4 ([Node.obj [(("v"), Val.vnum 5)]]) ([("v")]) (Val.vnum 5)
      (some (Val.vaddr 0)) none 0 [] (by decide),
   recursiveLookup_terminates.2.2.1 0 ([] : Heap) ([]) (Val.vnum 1) (some Val.vnull) none 0
      ([some Val.vnull]) (by decide)⟩

theorem nodeAt_lt (h : Heap) (a : Nat) (n : Node) (hx : nodeAt h a = some n) : a < h.length := by
  unfold nodeAt at hx
  exact List.get?_eq_some.mp hx |>.1

theorem nodeAt_of_lt (h : Heap) (a : Nat) (ha : a < h.length) : ∃ n, nodeAt h a = some n := by
  unfold nodeAt
  exact List.get?_eq_some.mpr ⟨ha, rfl⟩ |> fun hx => ⟨_, hx⟩

theorem nodeAt_append_lt (h ext : Heap) (a : Nat) (ha : a < h.length) :
    nodeAt (h ++ ext) a = nodeAt h a := by
  unfold nodeAt
  exact List.get?_append ha

theorem nodeAt_append_self (h : Heap) (n : Node) : nodeAt (h ++ [n]) h.length = some n := by
  unfold nodeAt
  rw [List.get?_append_right (le_refl _)]
  simp

theorem set_append_last (h : Heap) (x y : Node) : (h ++ [x]).set h.length y = h ++ [y] := by
  induction h with
  | nil => rfl
  | cons z h ih => simp [List.set, ih]

theorem nodeAt_set_ne (h : Heap) (a b : Nat) (n : Node) (hne : b ≠ a) :
    nodeAt (h.set b n) a = nodeAt h a := by
  unfold nodeAt
  rw [List.get?_set_ne _ _ hne]

theorem nodeAt_set_self (h : Heap) (b : Nat) (n : Node) (hb : b < h.length) :
    nodeAt (h.set b n) b = some n := by
  unfold nodeAt
  rw [List.get?_set_eq]
  cases hx : h.get? b with
  | none =>
    rw [List.get?_eq_none] at hx
    omega
  | some w => rfl

theorem setFieldH_eq (h : Heap) (a : Nat) (n : Node) (k : String) (v : Val)
    (hn : nodeAt h a = some n) : setFieldH h a k v = h.set a (setNodeField n k v) := by
  unfold setFieldH
  rw [hn]
  cases n <;> rfl

theorem assocGet_mem (l : List (String × Val)) (k : String) (v : Val)
    (hx : assocGet l k = some v) : v ∈ l.map Prod.snd := by
  unfold assocGet at hx
  rcases Option.map_eq_some'.mp hx with ⟨p, hp, hpv⟩
  rw [← hpv]
  exact List.mem_map_of_mem _ (List.mem_of_find?_eq_some hp)

theorem assocGet_none (l : List (String × Val)) (k : String) (hx : assocGet l k = none) :
    ∀ p ∈ l, (p.1 == k) = false := by
  unfold assocGet at hx
  rw [Option.map_eq_none'] at hx
  intro p hp
  simpa using List.find?_eq_none.mp hx p hp

theorem assocSet_of_none (l : List (String × Val)) (k : String) (v : Val)
    (hx : assocGet l k = none) : assocSet l k v = l ++ [(k, v)] := by
  unfold assocSet
  unfold assocGet at hx
  rw [Option.map_eq_none'] at hx
  rw [hx]
  rfl

theorem str_beq_false_symm {k k2 : String} (hne : (k2 == k) = false) : (k == k2) = false := by
  rw [beq_eq_false_iff_ne] at hne ⊢
  exact fun hc => hne hc.symm

theorem find_map_replace (l : List (String × Val)) (k k2 : String) (v : Val)
    (hne : (k2 == k) = false) :
    List.find? (fun p => p.1 == k2) (l.map (fun p => if (p.1 == k) = true then (k, v) else p)) =
      List.find? (fun p => p.1 == k2) l := by
  induction l with
  | nil => rfl
  | cons p l ih =>
    simp only [List.map_cons, List.find?]
    by_cases hpk : (p.1 == k) = true
    · rw [if_pos hpk]
      have h1 : ((k, v).1 == k2) = false := str_beq_false_symm hne
      have h2 : (p.1 == k2) = false := by
        rw [eq_of_beq hpk]
        exact str_beq_false_symm hne
      simp only [List.find?, h1, h2]
      exact ih
    · rw [if_neg hpk]
      by_cases hpk2 : (p.1 == k2) = true
      · rw [hpk2]
      · rw [Bool.not_eq_true] at hpk2
        rw [hpk2]
        exact ih

theorem find_map_replace_self (l : List (String × Val)) (k : String) (v : Val) :
    (List.find? (fun p => p.1 == k) l).isSome = true →
    List.find? (fun p => p.1 == k)
        (l.map (fun p => if (p.1 == k) = true then (k, v) else p)) = some (k, v) := by
  induction l with
  | nil => intro hf; simp at hf
  | cons p l ih =>
    intro hf
    simp only [List.map_cons, List.find?]
    by_cases hpk : (p.1 == k) = true
    · rw [if_pos hpk]
      simp [List.find?]
    · rw [if_neg hpk]
      rw [Bool.not_eq_true] at hpk
      simp only [List.find?, hpk]
      apply ih
      simp only [List.find?, hpk] at hf
      exact hf

theorem assocGet_assocSet_ne (l : List (String × Val)) (k k2 : String) (v : Val)
    (hne : (k2 == k) = false) : assocGet (assocSet l k v) k2 = assocGet l k2 := by
  unfold assocSet
  by_cases hf : (List.find? (fun p => p.1 == k) l).isSome
  · rw [if_pos hf]
    unfold assocGet
    rw [find_map_replace l k k2 v hne]
  · rw [if_neg hf]
    unfold assocGet
    rw [List.find?_append]
    have hone : List.find? (fun p => p.1 == k2) [(k, v)] = none := by
      simp only [List.find?]
      rw [str_beq_false_symm hne]
    rw [hone]
    cases List.find? (fun p => p.1 == k2) l <;> rfl

theorem assocGet_assocSet_self (l : List (String × Val)) (k : String) (v : Val) :
    assocGet (assocSet l k v) k = some v := by
  unfold assocSet
  by_cases hf : (List.find? (fun p => p.1 == k) l).isSome
  · rw [if_pos hf]
    unfold assocGet
    rw [find_map_replace_self l k v hf]
    rfl
  · rw [if_neg hf]
    unfold assocGet
    rw [List.find?_append]
    have hone : List.find? (fun p => p.1 == k) l = none := by
      cases hc : List.find? (fun p => p.1 == k) l with
      | none => rfl
      | some p => rw [hc] at hf; simp at hf
    rw [hone]
    simp [List.find?]

theorem filter_map_replace (l : List (String × Val)) (k : String) (v : Val)
    (q : String × Val → Bool) (hqk : ∀ w : Val, q (k, w) = false)
    (hq2 : ∀ p : String × Val, (p.1 == k) = true → q p = false) :
    (l.map (fun p => if (p.1 == k) = true then (k, v) else p)).filter q = l.filter q := by
  induction l with
  | nil => rfl
  | cons p l ih =>
    simp only [List.map_cons, List.filter_cons]
    by_cases hpk : (p.1 == k) = true
    · rw [if_pos hpk, hqk v, hq2 p hpk]
      simpa using ih
    · rw [if_neg hpk]
      cases hq : q p
      · simpa using ih
      · simpa using ih

theorem filter_assocSet (l : List (String × Val)) (k : String) (v : Val)
    (q : String × Val → Bool) (hqk : ∀ w : Val, q (k, w) = false)
    (hq2 : ∀ p : String × Val, (p.1 == k) = true → q p = false) :
    (assocSet l k v).filter q = l.filter q := by
  unfold assocSet
  by_cases hf : (List.find? (fun p => p.1 == k) l).isSome
  · rw [if_pos hf]
    exact filter_map_replace l k v q hqk hq2
  · rw [if_neg hf]
    rw [List.filter_append]
    have hone : List.filter q [(k, v)] = [] := by
      simp only [List.filter_cons, hqk v]
      rfl
    rw [hone, List.append_nil]

theorem stripNode_set_parent (n : Node) (v : Val) :
    stripNode (setNodeField n ("__parent__") v) = stripNode n := by
  cases n with
  | obj fs =>
    simp only [setNodeField, stripNode]
    rw [filter_assocSet]
    · intro w; simp
    · intro p hp
      rw [eq_of_beq hp]
      simp
  | arr es ex => rfl

theorem stripNode_set_toJson (n : Node) (v : Val) :
    stripNode (setNodeField n ("toJson") v) = stripNode n := by
  cases n with
  | obj fs =>
    simp only [setNodeField, stripNode]
    rw [filter_assocSet]
    · intro w; simp
    · intro p hp
      rw [eq_of_beq hp]
      simp
  | arr es ex => rfl

theorem nodeClean_parentField (n : Node) (hc : nodeClean n = true) : parentFieldOf n = none := by
  cases n with
  | obj fs =>
    simp only [nodeClean, List.all_eq_true] at hc
    simp only [parentFieldOf]
    cases hx : assocGet fs ("__parent__") with
    | none => rfl
    | some w =>
      unfold assocGet at hx
      rcases Option.map_eq_some'.mp hx with ⟨p, hp, _⟩
      have hmem := List.mem_of_find?_eq_some hp
      have hpk := List.find?_some hp
      have hcp := hc p hmem
      rw [eq_of_beq hpk] at hcp
      simp at hcp
  | arr es ex =>
    simp only [nodeClean, List.all_eq_true] at hc
    simp only [parentFieldOf]
    cases hx : assocGet ex ("__parent__") with
    | none => rfl
    | some w =>
      unfold assocGet at hx
      rcases Option.map_eq_some'.mp hx with ⟨p, hp, _⟩
      have hmem := List.mem_of_find?_eq_some hp
      have hpk := List.find?_some hp
      have hcp := hc p hmem
      rw [eq_of_beq hpk] at hcp
      simp at hcp

theorem nodeClean_cloneNode_parentField (n : Node) (hc : nodeClean n = true) :
    parentFieldOf (cloneNode n) = none := by
  cases n with
  | obj fs => exact nodeClean_parentField _ hc
  | arr es ex => rfl

theorem heapExt_refl (h : Heap) : heapExt h h := ⟨[], (List.append_nil h).symm⟩

theorem heapExt_trans {h h1 h2 : Heap} (hx : heapExt h h1) (hy : heapExt h1 h2) :
    heapExt h h2 := by
  rcases hx with ⟨e1, rfl⟩
  rcases hy with ⟨e2, rfl⟩
  exact ⟨e1 ++ e2, List.append_assoc h e1 e2⟩

theorem heapExt_length {h h2 : Heap} (hx : heapExt h h2) : h.length ≤ h2.length := by
  rcases hx with ⟨ext, rfl⟩
  simp

theorem nodeAt_heapExt {h h2 : Heap} (hx : heapExt h h2) {a : Nat} (ha : a < h.length) :
    nodeAt h2 a = nodeAt h a := by
  rcases hx with ⟨ext, rfl⟩
  exact nodeAt_append_lt h ext a ha

theorem heapExt_append (h ext : Heap) : heapExt h (h ++ ext) := ⟨ext, rfl⟩

theorem heapExt_set_fresh {h h1 : Heap} (hx : heapExt h h1) (b : Nat) (hb : h.length ≤ b)
    (n : Node) : heapExt h (h1.set b n) := by
  rcases hx with ⟨ext, rfl⟩
  refine ⟨ext.set (b - h.length) n, ?_⟩
  rw [List.set_append]
  rw [if_neg (by omega)]

theorem length_set (h : Heap) (b : Nat) (n : Node) : (h.set b n).length = h.length := by
  simp

theorem optChainParent_fresh (h h1 : Heap) (hfp : FreshParentOk h h1) (cur : Option Val)
    (hc : FreshVal h h1 cur) : FreshVal h h1 (optChainParent h1 cur) := by
  rcases hc with hnone | ⟨b, hcur, hb1, hb2⟩
  · rw [hnone]; exact Or.inl rfl
  · rw [hcur]
    rcases nodeAt_of_lt h1 b hb2 with ⟨n, hn⟩
    have hpf := hfp b n hb1 hn
    cases n with
    | obj fs =>
      simp only [optChainParent, getField, hn]
      cases hx : assocGet fs ("__parent__") with
      | none => exact Or.inl rfl
      | some pv =>
        rcases hpf pv (by simpa [parentFieldOf] using hx) with ⟨c, rfl, hc1, hc2⟩
        exact Or.inr ⟨c, rfl, hc1, hc2⟩
    | arr es ex =>
      have hpi : parseIndex? ("__parent__") = none := by decide
      simp only [optChainParent, getField, hn, hpi]
      cases hx : assocGet ex ("__parent__") with
      | none => exact Or.inl rfl
      | some pv =>
        rcases hpf pv (by simpa [parentFieldOf] using hx) with ⟨c, rfl, hc1, hc2⟩
        exact Or.inr ⟨c, rfl, hc1, hc2⟩

theorem walkParent_fresh (h h1 : Heap) (hfp : FreshParentOk h h1) :
    ∀ (k : Nat) (cur : Option Val), FreshVal h h1 cur →
      FreshVal h h1 (walkParent h1 k cur) := by
  intro k
  induction k with
  | zero => intro cur hc; exact hc
  | succ m ih =>
    intro cur hc
    exact ih _ (optChainParent_fresh h h1 hfp cur hc)

theorem surfaceCloneH_spec (h : Heap) (a : Nat) (n : Node) (hn : nodeAt h a = some n) :
    surfaceCloneH h (Val.vaddr a) = (h ++ [cloneNode n], Val.vaddr h.length) := by
  simp only [surfaceCloneH, hn]
  cases n <;> rfl

theorem parentFieldOf_set_parent (n : Node) (v : Val) :
    parentFieldOf (setNodeField n ("__parent__") v) = some v := by
  cases n <;> simp only [setNodeField, parentFieldOf] <;> exact assocGet_assocSet_self _ _ _

theorem nodeAt_mem (h : Heap) (a : Nat) (n : Node) (hn : nodeAt h a = some n) : n ∈ h := by
  unfold nodeAt at hn
  exact List.get?_mem hn

theorem freshParentOk_append (h h1 : Heap) (hfp : FreshParentOk h h1) (n : Node)
    (hp : parentFieldOf n = none) : FreshParentOk h (h1 ++ [n]) := by
  intro a m ha hm pv hpv
  by_cases halt : a < h1.length
  · rw [nodeAt_append_lt _ _ _ halt] at hm
    rcases hfp a m ha hm pv hpv with ⟨b, hb, hb1, hb2⟩
    refine ⟨b, hb, hb1, ?_⟩
    simp only [List.length_append, List.length_cons, List.length_nil]
    omega
  · have halen : a < h1.length + 1 := by
      have := nodeAt_lt _ _ _ hm
      simpa using this
    have haeq : a = h1.length := by omega
    rw [haeq, nodeAt_append_self] at hm
    injection hm with hm
    rw [← hm, hp] at hpv
    exact absurd hpv (by simp)

theorem freshParentOk_set_parent (h h1 : Heap) (hfp : FreshParentOk h h1) (b : Nat)
    (hb : h.length ≤ b) (hb2 : b < h1.length) (n : Node) (hn : nodeAt h1 b = some n)
    (c : Nat) (hc1 : h.length ≤ c) (hc2 : c < h1.length) :
    FreshParentOk h (h1.set b (setNodeField n ("__parent__") (Val.vaddr c))) := by
  intro a m ha hm pv hpv
  by_cases hab : a = b
  · subst hab
    rw [nodeAt_set_self _ _ _ hb2] at hm
    injection hm with hm
    rw [← hm, parentFieldOf_set_parent] at hpv
    injection hpv with hpv
    refine ⟨c, hpv.symm, hc1, ?_⟩
    rw [length_set]
    exact hc2
  · rw [nodeAt_set_ne _ _ _ _ (fun hc => hab hc.symm)] at hm
    rcases hfp a m ha hm pv hpv with ⟨b2, hb2v, hbb1, hbb2⟩
    refine ⟨b2, hb2v, hbb1, ?_⟩
    rw [length_set]
    exact hbb2

theorem setParent_preserve (h h1 h2 : Heap) (v : Val) (a d1 root : Nat) (r : Val) (node : Node)
    (hclean : CleanHeap h) (hna : nodeAt h a = some node)
    (hls : LookSuccess h h1 r v)
    (hsp : setParentStep h1 d1 root (Val.vaddr a) (some r) = .ok h2) :
    LookSuccess h h2 r v := by
  obtain ⟨ra, hr, hra1, hra2, hext, hfp, pa, pn, hpa, hpn, hcontains, rn, hrn, hstrip⟩ := hls
  have ha : a < h.length := nodeAt_lt _ _ _ hna
  have hw := walkParent_fresh h h1 hfp (d1 - (root + 2)) (some r)
    (Or.inr ⟨ra, by rw [hr], hra1, hra2⟩)
  unfold setParentStep at hsp
  split at hsp
  · -- unreachable null-result arm: heap unchanged anyway
    injection hsp with hsp
    rw [← hsp]
    exact ⟨ra, hr, hra1, hra2, hext, hfp, pa, pn, hpa, hpn, hcontains, rn, hrn, hstrip⟩
  · rename_i lp hwv0
    injection hwv0 with hwv0
    subst hwv0
    split at hsp
    · -- the parent walk ends nowhere: heap unchanged
      injection hsp with hsp
      rw [← hsp]
      exact ⟨ra, hr, hra1, hra2, hext, hfp, pa, pn, hpa, hpn, hcontains, rn, hrn, hstrip⟩
    · rename_i lp2 hwv
      rcases hw with hwn | ⟨b, hwb, hb1, hb2⟩
      · rw [hwv] at hwn
        exact absurd hwn (by simp)
      · rw [hwv] at hwb
        injection hwb with hwb
        subst hwb
        have hne : Val.vaddr b ≠ Val.vaddr a := by
          intro hc
          injection hc with hc
          omega
        have hcond : (jsTruthy (Val.vaddr b) && !(decide (Val.vaddr b = Val.vaddr a))) = true := by
          simp [jsTruthy, hne]
        rw [if_pos hcond] at hsp
        have hna1 : nodeAt h1 a = some node := by
          rw [nodeAt_heapExt hext ha]
          exact hna
        have hsp2 : Except.ok (setFieldH (surfaceCloneH h1 (Val.vaddr a)).1 b ("__parent__")
            (surfaceCloneH h1 (Val.vaddr a)).2) = Except.ok (ε := Unit) h2 := hsp
        rw [surfaceCloneH_spec h1 a node hna1] at hsp2
        have hsp3 : Except.ok (setFieldH (h1 ++ [cloneNode node]) b ("__parent__")
            (Val.vaddr h1.length)) = Except.ok (ε := Unit) h2 := hsp2
        injection hsp3 with hsp3
        rcases nodeAt_of_lt h1 b hb2 with ⟨nb, hnb⟩
        have hnb1 : nodeAt (h1 ++ [cloneNode node]) b = some nb := by
          rw [nodeAt_append_lt _ _ _ hb2]
          exact hnb
        rw [setFieldH_eq _ _ _ _ _ hnb1] at hsp3
        have hlen2 : h2.length = h1.length + 1 := by
          rw [← hsp3, length_set]
          simp
        have hcl : nodeClean node = true := hclean node (nodeAt_mem _ _ _ hna)
        refine ⟨ra, hr, hra1, by omega, ?_, ?_, pa, pn, hpa, hpn, hcontains, ?_⟩
        · rw [← hsp3]
          exact heapExt_set_fresh (heapExt_trans hext (heapExt_append h1 [cloneNode node]))
            b (by omega) _
        · rw [← hsp3]
          refine freshParentOk_set_parent h (h1 ++ [cloneNode node])
            (freshParentOk_append h h1 hfp _ (nodeClean_cloneNode_parentField node hcl))
            b hb1 ?_ nb hnb1 h1.length (by omega) ?_
          · simp only [List.length_append, List.length_cons, List.length_nil]
            omega
          · simp
        · by_cases hbra : b = ra
          · subst hbra
            have hnbrn : nb = rn := by
              rw [hnb] at hrn
              injection hrn with hh
            refine ⟨setNodeField nb ("__parent__") (Val.vaddr h1.length), ?_, ?_⟩
            · rw [← hsp3]
              refine nodeAt_set_self _ _ _ ?_
              simp only [List.length_append, List.length_cons, List.length_nil]
              omega
            · rw [stripNode_set_parent, hnbrn, hstrip]
          · refine ⟨rn, ?_, hstrip⟩
            rw [← hsp3, nodeAt_set_ne _ _ _ _ hbra,
              nodeAt_append_lt _ _ _ hra2]
            exact hrn

theorem freshParentOk_refl (h : Heap) : FreshParentOk h h := by
  intro a n ha hn
  have := nodeAt_lt _ _ _ hn
  omega

theorem parentFieldOf_set_toJson (n : Node) (v : Val) :
    parentFieldOf (setNodeField n ("toJson") v) = parentFieldOf n := by
  cases n <;> simp only [setNodeField, parentFieldOf] <;>
    exact assocGet_assocSet_ne _ _ _ _ (by decide)

theorem stripNode_cloneNode (n : Node) : stripNode (cloneNode n) = stripNode n := by
  cases n <;> rfl

theorem look_prim_success (h : Heap) (v t : Val) (parent : Option Val)
    (hclean : CleanHeap h) (hph : ParentHyp h parent (some t))
    (hprim : isStringOrNumber t = true) (hjs : jsEq t v = true)
    (h1 : Heap) (ra : Nat)
    (hcm : surfaceCloneH h (parentOr parent t) = (h1, Val.vaddr ra)) :
    LookSuccess h (setFieldH h1 ra ("toJson") Val.vclosure) (Val.vaddr ra) v := by
  rcases hph with hpn0 | htn | ⟨pa, n, hpar, hnpa, htv⟩
  · -- no parent: the clone of a primitive is the primitive, never an address
    rw [hpn0] at hcm
    cases t with
    | vstr s =>
      simp only [parentOr, surfaceCloneH] at hcm
      exact absurd (congrArg Prod.snd hcm) (by simp)
    | vnum i =>
      simp only [parentOr, surfaceCloneH] at hcm
      exact absurd (congrArg Prod.snd hcm) (by simp)
    | vnull => simp [isStringOrNumber] at hprim
    | vbool b => simp [isStringOrNumber] at hprim
    | vaddr a => simp [isStringOrNumber] at hprim
    | vclosure => simp [isStringOrNumber] at hprim
  · exact absurd htn (by simp)
  · have hpa : pa < h.length := nodeAt_lt _ _ _ hnpa
    have hporeq : parentOr parent t = Val.vaddr pa := by
      rw [hpar]
      rfl
    rw [hporeq, surfaceCloneH_spec h pa n hnpa] at hcm
    injection hcm with hcm1 hcm2
    injection hcm2 with hcm2
    subst hcm1
    subst hcm2
    have hnc : nodeAt (h ++ [cloneNode n]) h.length = some (cloneNode n) :=
      nodeAt_append_self h (cloneNode n)
    rw [setFieldH_eq _ _ _ _ _ hnc, set_append_last]
    have hcl : nodeClean n = true := hclean n (nodeAt_mem _ _ _ hnpa)
    refine ⟨h.length, rfl, le_refl _, by simp, heapExt_append _ _, ?_,
      pa, n, hpa, hnpa, ⟨t, htv t rfl, hprim, hjs⟩, ?_⟩
    · refine freshParentOk_append h h (freshParentOk_refl h) _ ?_
      rw [parentFieldOf_set_toJson]
      exact nodeClean_cloneNode_parentField n hcl
    · refine ⟨setNodeField (cloneNode n) ("toJson") Val.vclosure, nodeAt_append_self _ _, ?_⟩
      rw [stripNode_set_toJson, stripNode_cloneNode]

theorem lookStep_cont (n : Nat) (map2 : List String) (v : Val) (pv : Option Val) (root2 : Nat)
    (seen2 : List (Option Val)) :
    ∀ (hx : Heap) (e : Val) (hy : Heap),
      lookStep (fun h1 item => look n h1 map2 v (some item) pv root2 seen2)
          (some (.ok (hx, none))) e = some (.ok (hy, none)) → hy = hx := by
  intro hx e hy hstep
  simp only [lookStep] at hstep
  cases hsub : look n hx map2 v (some e) pv root2 seen2 with
  | none => rw [hsub] at hstep; simp at hstep
  | some exc =>
    rw [hsub] at hstep
    cases exc with
    | error err => simp at hstep
    | ok out =>
      obtain ⟨hz, dz, resz⟩ := out
      cases resz with
      | some rz => simp at hstep
      | none =>
        simp only [Option.some.injEq, Except.ok.injEq, Prod.mk.injEq] at hstep
        rw [← hstep.1]
        exact look_fail n hx map2 v (some e) pv root2 seen2 hz dz hsub

theorem look_success :
    ∀ (fuel : Nat) (h : Heap) (map : List String) (v : Val) (target parent : Option Val)
      (root : Nat) (seen : List (Option Val)) (h2 : Heap) (d : Nat) (r : Val),
      CleanHeap h → ParentHyp h parent target →
      look fuel h map v target parent root seen = some (.ok (h2, d, some r)) →
      LookSuccess h h2 r v := by
  intro fuel
  induction fuel with
  | zero =>
    intro h map v target parent root seen h2 d r _ _ hEq
    simp [look] at hEq
  | succ n ih =>
    intro h map v target parent root seen h2 d r hclean hph hEq
    simp only [look] at hEq
    split at hEq
    · exact absurd hEq (by simp)
    · rename_i hns
      split at hEq
      · exact absurd hEq (by simp)
      · exact absurd hEq (by simp)
      · -- target = some (vaddr a)
        rename_i a
        split at hEq
        · -- array node
          rename_i es ex hn
          split at hEq
          · exact absurd hEq (by simp)
          · split at hEq
            · exact absurd hEq (by simp)
            · exact absurd hEq (by simp)
            · -- a matching element was found; the parent is then attached
              rename_i h1 d1 r1 hfold
              split at hEq
              · exact absurd hEq (by simp)
              · rename_i h3 hsp
                simp only [Option.some.injEq, Except.ok.injEq, Prod.mk.injEq] at hEq
                obtain ⟨hh3, hd1, hr1⟩ := hEq
                rcases foldStep_success _ (fun e => rfl) (fun err e => rfl)
                    (fun hx dr e => rfl)
                    (lookStep_cont n (List.drop 1 map) v (some (Val.vaddr a)) (root + 1)
                      (seen ++ [some (Val.vaddr a)]))
                    es h h1 (d1, r1) hfold with ⟨e, hmem, hstep⟩
                simp only [lookStep] at hstep
                cases hsub : look n h (List.drop 1 map) v (some e) (some (Val.vaddr a))
                    (root + 1) (seen ++ [some (Val.vaddr a)]) with
                | none => rw [hsub] at hstep; simp at hstep
                | some exc =>
                  rw [hsub] at hstep
                  cases exc with
                  | error err => simp at hstep
                  | ok out =>
                    obtain ⟨hx, dx, resx⟩ := out
                    cases resx with
                    | none => simp at hstep
                    | some rx =>
                      simp only [Option.some.injEq, Except.ok.injEq, Prod.mk.injEq] at hstep
                      obtain ⟨hxh, hdx, hrx⟩ := hstep
                      rw [hxh, hdx, hrx] at hsub
                      have hph2 : ParentHyp h (some (Val.vaddr a)) (some e) := by
                        refine Or.inr (Or.inr ⟨a, .arr es ex, rfl, hn, ?_⟩)
                        intro tv htv
                        injection htv with htv
                        rw [← htv]
                        exact List.mem_append_left _ hmem
                      have hls := ih h (List.drop 1 map) v (some e) (some (Val.vaddr a))
                        (root + 1) (seen ++ [some (Val.vaddr a)]) h1 d1 r1 hclean hph2 hsub
                      rw [hr1] at hls
                      rw [← hh3]
                      rw [hr1] at hsp
                      exact setParent_preserve h h1 h3 v a d1 root r (.arr es ex)
                        hclean hn hls hsp
            · exact absurd hEq (by simp)
        · -- object node
          rename_i fs hn
          split at hEq
          · exact absurd hEq (by simp)
          · exact absurd hEq (by simp)
          · rename_i h1 d1 res1 hsub
            split at hEq
            · exact absurd hEq (by simp)
            · rename_i h3 hsp
              simp only [Option.some.injEq, Except.ok.injEq, Prod.mk.injEq] at hEq
              obtain ⟨hh3, hd1, hres⟩ := hEq
              rw [hres] at hsub hsp
              have hph2 : ParentHyp h (some (Val.vaddr a))
                  (assocGet fs (if (map.head? == some ("[value]")) = true then valToKey v
                    else (map.head?).getD ("undefined"))) := by
                cases hag : assocGet fs (if (map.head? == some ("[value]")) = true then valToKey v
                    else (map.head?).getD ("undefined")) with
                | none => exact Or.inr (Or.inl rfl)
                | some tv =>
                  refine Or.inr (Or.inr ⟨a, .obj fs, rfl, hn, ?_⟩)
                  intro tv2 htv2
                  injection htv2 with htv2
                  rw [← htv2]
                  exact assocGet_mem _ _ _ hag
              have hls := ih h (List.drop 1 map) v _ (some (Val.vaddr a)) (root + 1)
                (seen ++ [some (Val.vaddr a)]) h1 d1 r hclean hph2 hsub
              rw [← hh3]
              exact setParent_preserve h h1 h3 v a d1 root r (.obj fs) hclean hn hls hsp
        · -- dangling address: the recursive call's target is null, so no match
          split at hEq
          · exact absurd hEq (by simp)
          · exact absurd hEq (by simp)
          · rename_i h1 d1 res1 hsub
            cases n with
            | zero => simp [look] at hsub
            | succ m =>
              rw [look_none_target] at hsub
              injection hsub with hsub
              injection hsub with hsub
              injection hsub with hsubh hsub
              injection hsub with hsubd hsubr
              rw [← hsubr] at hEq
              split at hEq
              · exact absurd hEq (by simp)
              · exact absurd hEq (by simp)
      · -- primitive target
        rename_i t hne1 hne2
        split at hEq
        · split at hEq
          · rename_i hempty hcond
            split at hEq
            · rename_i h1 ra hcm
              simp only [Option.some.injEq, Except.ok.injEq, Prod.mk.injEq] at hEq
              obtain ⟨hh2, hd, hr⟩ := hEq
              rw [Bool.and_eq_true] at hcond
              rw [← hh2, ← hr]
              exact look_prim_success h v t parent hclean hph hcond.1 hcond.2 h1 ra hcm
            · exact absurd hEq (by simp)
          · exact absurd hEq (by simp)
        · exact absurd hEq (by simp)

/-- Claim C4 counterexample: on the self-referential input a.self = a;
a.v = 5, searching "v" for 5 succeeds, but the returned record reaches
a cycle of the serialized graph: the clone is shallow, so its fields
still reference the original cyclic nodes and JSON.stringify of the
result throws a circular-structure error. -/
theorem recursiveLookup_result_cyclic :
    (recursiveLookupStr ([Node.obj [(("self"), Val.vaddr 0), (("v"), Val.vnum 5)]])
        ("v") (Val.vnum 5) (some (Val.vaddr 0))).2.2 = some (Val.vaddr 1) ∧
    hasCycleFromVal (recursiveLookupStr ([Node.obj [(("self"), Val.vaddr 0),
        (("v"), Val.vnum 5)]]) ("v") (Val.vnum 5) (some (Val.vaddr 0))).1
      (Val.vaddr 1) = true := by
  exact ⟨rfl, rfl⟩

/-- Claim C4 (amended): every successful recursiveLookup call on a
clean well-formed input returns a fresh shallow clone of the enclosing
record — a node of the input graph directly containing a
string-or-number leaf loosely equal to the searched value — whose
synthetic back-reference chain stays within the freshly added nodes;
but the clone shares its field values with the original graph, so the
result is not serializable when the input is self-referential, as the
cyclic example shows. -/
theorem recursiveLookup_enclosing_record_amended :
    (∀ (h : Heap) (map : List String) (v : Val) (target : Option Val)
        (h2 : Heap) (d : Nat) (r : Val),
        CleanHeap h →
        recursiveLookupL h map v target = (h2, d, some r) →
        LookSuccess h h2 r v) ∧
    hasCycleFromVal (recursiveLookupStr ([Node.obj [(("self"), Val.vaddr 0),
        (("v"), Val.vnum 5)]]) ("v") (Val.vnum 5) (some (Val.vaddr 0))).1
      (Val.vaddr 1) = true := by
  constructor
  · intro h map v target h2 d r hclean hEq
    unfold recursiveLookupL at hEq
    split at hEq
    · rename_i out heq
      subst hEq
      exact look_success (lookFuel h) h map v target none 0 [] h2 d r hclean (Or.inl rfl) heq
    · exact absurd (congrArg (fun p => p.2.2) hEq) (by simp)
    · exact absurd (congrArg (fun p => p.2.2) hEq) (by simp)
  · rfl

theorem recursiveLookup_enclosing_record_amended_witness :
    CleanHeap ([Node.obj [(("self"), Val.vaddr 0), (("v"), Val.vnum 5)]]) ∧
    LookSuccess ([Node.obj [(("self"), Val.vaddr 0), (("v"), Val.vnum 5)]])
      ([Node.obj [(("self"), Val.vaddr 0), (("v"), Val.vnum 5)],
        Node.obj [(("self"), Val.vaddr 0), (("v"), Val.vnum 5), (("toJson"), Val.vclosure),
          (("__parent__"), Val.vaddr 2)],
        Node.obj [(("self"), Val.vaddr 0), (("v"), Val.vnum 5)]])
      (Val.vaddr 1) (Val.vnum 5) :=
  ⟨by unfold CleanHeap; decide,
   recursiveLookup_enclosing_record_amended.1
     ([Node.obj [(("self"), Val.vaddr 0), (("v"), Val.vnum 5)]]) ([("v")]) (Val.vnum 5)
     (some (Val.vaddr 0)) _ 1 (Val.vaddr 1) (by unfold CleanHeap; decide) rfl⟩
